import Mathlib

/-!
# Verification of the CogniPilot credentials core

A shallow embedding of the credential-integrity subsystem of the
repository: the bitstring status-list codec (`scripts/status_list.py`),
the status registry operations, the key codec and proof engine
(`scripts/sign_credential.py`, `scripts/verify_credential.py`), together
with proofs of the stated behavioural properties.

External library primitives (gzip, base64/base58 big-number coding is
implemented where the repository relies on its exact byte layout, ideal
models elsewhere, SHA-256, Ed25519, pyld RDF canonicalization) are not
part of the repository; they are modelled by executable stand-ins whose
doc comments state the library contract they realize.  Everything else
is translated line by line from the Python source.  Persistent state
(the status-registry file) is passed explicitly; timestamps
(`datetime.now`) are explicit parameters.
-/

set_option maxRecDepth 10000

/-- A byte, as stored in a Python `bytes` object (always in `0..255`). -/
abbrev Byte := Fin 256

/-- JSON-like values, the shape of Python's parsed JSON documents.
Objects are insertion-ordered key/value lists, matching Python dicts. -/
inductive JVal where
  | null : JVal
  | bool : Bool → JVal
  | num : Int → JVal
  | str : String → JVal
  | arr : List JVal → JVal
  | obj : List (String × JVal) → JVal

/-- Python `v == "s"` for an optional JSON value against a string
literal (a missing key gives `None`, which is unequal to any string). -/
def isStrVal (v : Option JVal) (s : String) : Bool :=
  match v with
  | some (.str t) => t == s
  | _ => false

/-- A JSON document: a Python dict at top level (insertion-ordered). -/
abbrev Doc := List (String × JVal)

/-- Python `dict.get(k)`: the value of the first (only) binding of `k`. -/
def dGet (d : Doc) (k : String) : Option JVal :=
  match d with
  | [] => none
  | (k', v) :: rest => if k' = k then some v else dGet rest k

/-- Python truthiness of a JSON value (`if not status:` tests). -/
def jfalsy : JVal → Bool
  | .null => true
  | .bool b => !b
  | .num n => n == 0
  | .str s => s.data.isEmpty
  | .arr xs => xs.isEmpty
  | .obj fs => fs.isEmpty

/-- Digits of a decimal literal, `none` if empty or a non-digit occurs. -/
def parseDigits : List Char → Option Nat
  | [] => none
  | cs => cs.foldl (fun acc c =>
      match acc with
      | none => none
      | some n => if c.isDigit then some (n * 10 + (c.toNat - 48)) else none)
      (some 0)

/-- Python `str.strip()` on the character list (surrounding whitespace
removed). -/
def pyStrip (cs : List Char) : List Char :=
  ((cs.dropWhile (fun c => c.isWhitespace)).reverse.dropWhile
    (fun c => c.isWhitespace)).reverse

/-- Python `int(s)` on a string: optional surrounding whitespace, optional
sign, decimal digits.  (Digit-group underscores and non-ASCII digits are
not modelled.) -/
def pyParseInt (s : String) : Option Int :=
  match pyStrip s.data with
  | '-' :: ds => (parseDigits ds).map (fun n => -(n : Int))
  | '+' :: ds => (parseDigits ds).map (fun n => (n : Int))
  | ds => (parseDigits ds).map (fun n => (n : Int))

/-- Python `int(v)` on a JSON value: ints pass through, bools coerce,
strings are parsed, everything else raises (`none`). -/
def pyInt : JVal → Option Int
  | .num n => some n
  | .bool b => some (if b then 1 else 0)
  | .str s => pyParseInt s
  | _ => none

/-! ## Status registry (`scripts/status_list.py`, registry operations)

The registry file is
`{"next_index": n, "credentials": {identity: entry}}`; `load`/`save`
become explicit state passing. -/

/-- One registry record per credential identity
(`status_list.py::load_status_registry` docstring). -/
structure RegistryEntry where
  index : Nat
  revoked : Bool
  revoked_at : Option String
  issued_at : String
deriving DecidableEq, Repr

/-- The persisted status registry. -/
structure Registry where
  next_index : Nat
  credentials : List (String × RegistryEntry)
deriving DecidableEq, Repr

/-- Python dict lookup over the `credentials` mapping (first binding). -/
def regGet (creds : List (String × RegistryEntry)) (k : String) :
    Option RegistryEntry :=
  match creds with
  | [] => none
  | (k', v) :: rest => if k' = k then some v else regGet rest k

/-- Python in-place update of the binding of `k` (order preserved). -/
def regUpd (creds : List (String × RegistryEntry)) (k : String)
    (f : RegistryEntry → RegistryEntry) : List (String × RegistryEntry) :=
  match creds with
  | [] => []
  | (k', v) :: rest =>
      if k' = k then (k', f v) :: rest else (k', v) :: regUpd rest k f

/-- Python `dict.pop(k)`: the mapping with the binding of `k` removed. -/
def regErase (creds : List (String × RegistryEntry)) (k : String) :
    List (String × RegistryEntry) :=
  match creds with
  | [] => []
  | (k', v) :: rest =>
      if k' = k then rest else (k', v) :: regErase rest k

/-- `status_list.py::allocate_status_index`.  `now` stands for
`datetime.now(timezone.utc)` formatted; the updated (saved) registry is
returned alongside the allocated index. -/
def allocate_status_index (registry : Registry) (credential_id : String)
    (now : String) : Nat × Registry :=
  match regGet registry.credentials credential_id with
  | some info => (info.index, registry)
  | none =>
      let index := registry.next_index
      (index,
        { next_index := index + 1,
          credentials := registry.credentials ++
            [(credential_id, ⟨index, false, none, now⟩)] })

/-- `status_list.py::get_status_index`. -/
def get_status_index (registry : Registry) (credential_id : String) :
    Option Nat :=
  (regGet registry.credentials credential_id).map (·.index)

/-- `status_list.py::is_revoked`. -/
def is_revoked (registry : Registry) (credential_id : String) : Bool :=
  match regGet registry.credentials credential_id with
  | some info => info.revoked
  | none => false

/-- `status_list.py::revoke_credential`. -/
def revoke_credential (registry : Registry) (credential_id : String)
    (now : String) : Bool × Registry :=
  match regGet registry.credentials credential_id with
  | none => (false, registry)
  | some _ =>
      (true, { registry with
        credentials := regUpd registry.credentials credential_id
          (fun e => { e with revoked := true, revoked_at := some now }) })

/-- `status_list.py::unrevoke_credential`. -/
def unrevoke_credential (registry : Registry) (credential_id : String) :
    Bool × Registry :=
  match regGet registry.credentials credential_id with
  | none => (false, registry)
  | some _ =>
      (true, { registry with
        credentials := regUpd registry.credentials credential_id
          (fun e => { e with revoked := false, revoked_at := none }) })

/-- `status_list.py::rename_credential_in_registry`.  A moved entry is
popped and re-inserted, so it goes to the end of the mapping. -/
def rename_credential_in_registry (registry : Registry)
    (old_credential_id new_credential_id : String) : Bool × Registry :=
  if old_credential_id = new_credential_id then
    (true, registry)
  else
    match regGet registry.credentials old_credential_id with
    | none => (false, registry)
    | some entry =>
        match regGet registry.credentials new_credential_id with
        | some _ => (false, registry)
        | none =>
            (true, { registry with
              credentials :=
                regErase registry.credentials old_credential_id ++
                  [(new_credential_id, entry)] })

/-- One iteration of the rename loop in
`status_list.py::rename_wallet_in_registry`: skip on collision with the
current mapping, otherwise pop the old binding and append the new one.
(The `none` fallback of the pop is unreachable for well-formed
registries: the collected old keys are distinct and never re-inserted.) -/
def renameStep (acc : Nat × List (String × RegistryEntry))
    (p : String × String) : Nat × List (String × RegistryEntry) :=
  match regGet acc.2 p.2 with
  | some _ => acc
  | none =>
      match regGet acc.2 p.1 with
      | none => acc
      | some entry => (acc.1 + 1, regErase acc.2 p.1 ++ [(p.2, entry)])

/-- `status_list.py::rename_wallet_in_registry`. -/
def rename_wallet_in_registry (registry : Registry)
    (old_wallet_slug new_wallet_slug : String) : Nat × Registry :=
  if old_wallet_slug = new_wallet_slug then (0, registry)
  else
    let oldPre := old_wallet_slug ++ "/"
    let newPre := new_wallet_slug ++ "/"
    let to_rename := registry.credentials.filterMap (fun kv =>
      if oldPre.isPrefixOf kv.1 then
        some (kv.1, newPre ++ kv.1.drop oldPre.length)
      else none)
    let r := to_rename.foldl renameStep (0, registry.credentials)
    (r.1, { registry with credentials := r.2 })

/-! ## Bitstring primitives (`scripts/status_list.py`)

A Python `bytes` object is a `List Byte`.  Raised `IndexError`s are
modelled by `none`. -/

/-- `x ||| (1 <<< k)` keeps a byte a byte. -/
theorem byte_or_lt {x k : Nat} (hx : x < 256) (hk : k < 8) :
    x ||| (1 <<< k) < 256 := by
  have h1 : (1 <<< k) < 2 ^ 8 := by
    rw [Nat.shiftLeft_eq, Nat.one_mul]
    exact Nat.pow_lt_pow_right (by norm_num) hk
  have hx' : x < 2 ^ 8 := by norm_num at hx ⊢; exact hx
  have := Nat.or_lt_two_pow hx' h1
  norm_num at this; exact this

/-- Masking with `&&&` keeps a byte a byte. -/
theorem byte_and_lt {x : Nat} (m : Nat) (hx : x < 256) : x &&& m < 256 :=
  lt_of_le_of_lt Nat.and_le_left hx

/-- `status_list.py::create_empty_bitstring` (`bytes(size_bytes)`). -/
def create_empty_bitstring (size_bytes : Nat) : List Byte :=
  List.replicate size_bytes (0 : Byte)

/-- `status_list.py::get_bit`.  `none` models the raised `IndexError`. -/
def get_bit (bitstring : List Byte) (index : Nat) : Option Bool :=
  let byte_index := index / 8
  let bit_offset := index % 8
  if h : byte_index < bitstring.length then
    some (Nat.testBit (bitstring.get ⟨byte_index, h⟩).val (7 - bit_offset))
  else
    none

/-- `status_list.py::set_bit`.  Python clears a bit with
`x &= ~(1 << k)` on an unbounded int; for a byte `x < 256` this equals
masking with the 8-bit complement `255 ^^^ (1 <<< k)` used here.
`none` models the raised `IndexError`. -/
def set_bit (bitstring : List Byte) (index : Nat) (value : Bool) :
    Option (List Byte) :=
  let byte_index := index / 8
  let bit_offset := index % 8
  if h : byte_index < bitstring.length then
    let old := (bitstring.get ⟨byte_index, h⟩).val
    let updated : Byte :=
      if value then
        ⟨old ||| (1 <<< (7 - bit_offset)),
          byte_or_lt (bitstring.get ⟨byte_index, h⟩).isLt (by omega)⟩
      else
        ⟨old &&& (255 ^^^ (1 <<< (7 - bit_offset))),
          byte_and_lt _ (bitstring.get ⟨byte_index, h⟩).isLt⟩
    some (bitstring.set byte_index updated)
  else
    none

/-- `get_bit` as invoked with a Python `int` index (used only by the
remote-fetch fallback of `verify_status`): floor division, a
sign-following modulus, and Python's wrap-around negative indexing. -/
def get_bit_int (bitstring : List Byte) (index : Int) : Option Bool :=
  let byte_index := Int.fdiv index 8
  let bit_offset := Int.fmod index 8
  if byte_index ≥ (bitstring.length : Int) then none
  else
    let j := if byte_index < 0 then byte_index + bitstring.length else byte_index
    if h : 0 ≤ j ∧ j < (bitstring.length : Int) then
      some (Nat.testBit (bitstring.get ⟨j.toNat, by omega⟩).val
        (7 - bit_offset.toNat))
    else none

/-! ## gzip model

gzip (RFC 1952 / DEFLATE) is an external library
(`gzip.compress`/`gzip.decompress`); the repository relies only on its
round-trip contract.  It is modelled by an injective stand-in that, like
the real codec, maps a payload to a different, framed byte stream:
a two-byte magic header followed by the payload.  `decompress` rejects
streams without the header, as the library rejects non-gzip data. -/

/-- Model of the external `gzip.compress`. -/
def gzip_compress (data : List Byte) : List Byte :=
  (31 : Byte) :: (139 : Byte) :: data

/-- Model of the external `gzip.decompress`; `none` models the raised
`BadGzipFile`/`error` on malformed input. -/
def gzip_decompress (data : List Byte) : Option (List Byte) :=
  match data with
  | a :: b :: rest => if a = (31 : Byte) ∧ b = (139 : Byte) then some rest else none
  | _ => none

theorem gzip_roundtrip (b : List Byte) :
    gzip_decompress (gzip_compress b) = some b := by
  simp [gzip_compress, gzip_decompress]

/-! ## base64url codec (RFC 4648 §5)

`base64.urlsafe_b64encode` / `urlsafe_b64decode` are standard-library
primitives; the repository's `encode_bitstring`/`decode_bitstring` rely
on their exact text layout (character groups and `=` padding), so the
codec is implemented for real. -/

/-- The base64url alphabet. -/
def b64Alphabet : List Char :=
  [ 'A','B','C','D','E','F','G','H','I','J','K','L','M',
    'N','O','P','Q','R','S','T','U','V','W','X','Y','Z',
    'a','b','c','d','e','f','g','h','i','j','k','l','m',
    'n','o','p','q','r','s','t','u','v','w','x','y','z',
    '0','1','2','3','4','5','6','7','8','9','-','_' ]

/-- The character for a 6-bit group. -/
def b64Char (v : Nat) : Char := b64Alphabet.getD v 'A'

/-- The 6-bit group of a character, `none` outside the alphabet. -/
def b64CharVal (c : Char) : Option Nat :=
  let i := b64Alphabet.indexOf c
  if i < 64 then some i else none

/-- Unpadded base64url character stream of a byte sequence. -/
def b64EncodeRaw : List Byte → List Char
  | [] => []
  | [a] =>
      [b64Char (a.val / 4), b64Char (a.val % 4 * 16)]
  | [a, b] =>
      [b64Char (a.val / 4), b64Char (a.val % 4 * 16 + b.val / 16),
       b64Char (b.val % 16 * 4)]
  | a :: b :: c :: rest =>
      b64Char (a.val / 4) :: b64Char (a.val % 4 * 16 + b.val / 16) ::
      b64Char (b.val % 16 * 4 + c.val / 64) :: b64Char (c.val % 64) ::
      b64EncodeRaw rest

/-- Number of `=` padding characters appended for a payload of `n` bytes. -/
def b64PadLen (n : Nat) : Nat := if n % 3 = 0 then 0 else 3 - n % 3

/-- Model of `base64.urlsafe_b64encode` (returns the padded text). -/
def b64EncodePadded (bs : List Byte) : List Char :=
  b64EncodeRaw bs ++ List.replicate (b64PadLen bs.length) '='

/-- Decoder for an unpadded base64url character stream. -/
def b64DecodeRaw : List Char → Option (List Byte)
  | [] => some []
  | [c1, c2] => do
      let v1 ← b64CharVal c1
      let v2 ← b64CharVal c2
      if h : v1 < 64 ∧ v2 < 64 then
        some [⟨v1 * 4 + v2 / 16, by omega⟩]
      else none
  | [c1, c2, c3] => do
      let v1 ← b64CharVal c1
      let v2 ← b64CharVal c2
      let v3 ← b64CharVal c3
      if h : v1 < 64 ∧ v2 < 64 ∧ v3 < 64 then
        some [⟨v1 * 4 + v2 / 16, by omega⟩, ⟨v2 % 16 * 16 + v3 / 4, by omega⟩]
      else none
  | c1 :: c2 :: c3 :: c4 :: rest => do
      let v1 ← b64CharVal c1
      let v2 ← b64CharVal c2
      let v3 ← b64CharVal c3
      let v4 ← b64CharVal c4
      let tail ← b64DecodeRaw rest
      if h : v1 < 64 ∧ v2 < 64 ∧ v3 < 64 ∧ v4 < 64 then
        some (⟨v1 * 4 + v2 / 16, by omega⟩ :: ⟨v2 % 16 * 16 + v3 / 4, by omega⟩ ::
              ⟨v3 % 4 * 64 + v4, by omega⟩ :: tail)
      else none
  | [_] => none

/-- Python `str.rstrip` of the `=` character. -/
def rstripEq (s : List Char) : List Char :=
  (s.reverse.dropWhile (fun c => c == '=')).reverse

/-- Model of `base64.urlsafe_b64decode`: the input length must be a
multiple of four (else `binascii.Error`, i.e. `none`); trailing padding
is removed and the remaining groups decoded. -/
def b64DecodePadded (s : List Char) : Option (List Byte) :=
  if s.length % 4 = 0 then b64DecodeRaw (rstripEq s) else none

/-- `status_list.py::encode_bitstring`: gzip-compress, base64url-encode,
strip `=` padding. -/
def encode_bitstring (bitstring : List Byte) : String :=
  String.mk (rstripEq (b64EncodePadded (gzip_compress bitstring)))

/-- `status_list.py::decode_bitstring`: restore padding to a multiple of
four characters, base64url-decode, gzip-decompress. -/
def decode_bitstring (encoded : String) : Option (List Byte) := do
  let cs := encoded.data
  let padding := 4 - cs.length % 4
  let padded := if padding ≠ 4 then cs ++ List.replicate padding '=' else cs
  let compressed ← b64DecodePadded padded
  gzip_decompress compressed

/-! ## base58 model

`base58.b58encode`/`b58decode` are an external library.  The repository
uses the codec only as an injective byte-to-text transform with a total
inverse (and an error on characters outside the alphabet), so it is
modelled by a hexadecimal coding over sixteen characters of the base58
alphabet: two text characters per byte. -/

/-- The sixteen base58-alphabet characters used by the codec model. -/
def b58Digits : List Char :=
  ['1','2','3','4','5','6','7','8','9','A','B','C','D','E','F','G']

/-- Character for a 4-bit group. -/
def b58Digit (v : Nat) : Char := b58Digits.getD v '1'

/-- 4-bit group of a character, `none` outside the model's alphabet. -/
def b58DigitVal (c : Char) : Option Nat :=
  let i := b58Digits.indexOf c
  if i < 16 then some i else none

/-- Model of the external `base58.b58encode` (as text characters). -/
def b58EncodeL : List Byte → List Char
  | [] => []
  | b :: rest => b58Digit (b.val / 16) :: b58Digit (b.val % 16) :: b58EncodeL rest

/-- Model of the external `base58.b58decode`; `none` models the raised
`ValueError` on text that is not a valid encoding. -/
def b58DecodeL : List Char → Option (List Byte)
  | [] => some []
  | [_] => none
  | c1 :: c2 :: rest => do
      let v1 ← b58DigitVal c1
      let v2 ← b58DigitVal c2
      let tail ← b58DecodeL rest
      if h : v1 < 16 ∧ v2 < 16 then
        some (⟨v1 * 16 + v2, by omega⟩ :: tail)
      else none

/-! ## SHA-256 and Ed25519 models

`hashlib.sha256` is modelled by an injective digest (the identity on
byte streams): the repository relies only on the digest being a
deterministic function of the input, never on its 32-byte width.

PyNaCl's Ed25519 (`nacl.signing`) is modelled ideally: a verifying key
is derived injectively from a signing key's seed, signing is a
deterministic function of key and message, and verification succeeds
exactly on the signature that the matching signing key produces for the
message (existential unforgeability taken as the library contract). -/

/-- Model of the external `hashlib.sha256(...).digest()`. -/
def sha256 (msg : List Byte) : List Byte := msg

/-- Model of `nacl.signing.SigningKey` (an Ed25519 seed). -/
structure SigningKeyM where
  seed : List Byte
deriving DecidableEq

/-- Model of `nacl.signing.VerifyKey`. -/
structure VerifyKeyM where
  pub : List Byte
deriving DecidableEq

/-- Model of `SigningKey.verify_key`: public-key derivation (injective;
modelled as the seed itself). -/
def derive_verify_key (sk : SigningKeyM) : VerifyKeyM := ⟨sk.seed⟩

/-- Model of `SigningKey.sign(msg).signature`. -/
def ed_sign (sk : SigningKeyM) (msg : List Byte) : List Byte :=
  sk.seed ++ msg

/-- Model of `VerifyKey.verify(msg, sig)` as a Boolean (the code catches
`BadSignatureError` and reports failure). -/
def ed_verify (vk : VerifyKeyM) (msg sig : List Byte) : Bool :=
  sig == ed_sign ⟨vk.pub⟩ msg

/-! ## Key codec (`decode_multibase`, `load_public_key`,
`load_private_key`)

`decode_multibase` is defined identically in `sign_credential.py` and
`verify_credential.py`.  The key loaders read a JSON key file and then
decode the multibase field; the file layer is outside the codec, so the
decoding pipeline is modelled from the multibase token on. -/

/-- Failure modes of the key-decoding pipeline.  `stringIndexError`
models the `IndexError` Python raises while formatting the
"Unsupported multibase prefix" message for an empty token (`value[0]`);
`invalidBase58` the `ValueError` of the base58 library;
`invalidKeySize` the `ValueError` PyNaCl raises when a key is not
exactly 32 bytes. -/
inductive KeyErr where
  | unsupportedEncoding
  | stringIndexError
  | invalidBase58
  | invalidKeyFormat
  | invalidKeySize
deriving DecidableEq, Repr

/-- `decode_multibase` (both scripts, identical): a token must start
with `z`; the remainder is base58-decoded. -/
def decode_multibase (value : String) : Except KeyErr (List Byte) :=
  match value.data with
  | 'z' :: rest =>
      match b58DecodeL rest with
      | some bs => .ok bs
      | none => .error .invalidBase58
  | [] => .error .stringIndexError
  | _ :: _ => .error .unsupportedEncoding

/-- Which of the two key kinds is being decoded. -/
inductive KeyKind where
  | pub
  | priv
deriving DecidableEq, Repr

/-- The expected multicodec header: `ED25519_PUB_HEADER = [0xed, 0x01]`
(`verify_credential.py`), `ED25519_PRIV_HEADER = [0x80, 0x26]`
(`sign_credential.py`). -/
def expectedHeader : KeyKind → List Byte
  | .pub => [(0xed : Byte), (0x01 : Byte)]
  | .priv => [(0x80 : Byte), (0x26 : Byte)]

/-- The key-decoding pipeline of `load_public_key` /
`load_private_key`: multibase-decode, check the two-byte multicodec
header, hand the remaining bytes to `VerifyKey` / `SigningKey` (which,
per the PyNaCl contract, require exactly 32 bytes). -/
def decode_key (kind : KeyKind) (token : String) :
    Except KeyErr (List Byte) :=
  match decode_multibase token with
  | .error e => .error e
  | .ok decoded =>
      if decoded.take 2 ≠ expectedHeader kind then
        .error .invalidKeyFormat
      else
        let raw := decoded.drop 2
        if raw.length = 32 then .ok raw else .error .invalidKeySize

/-! ## Python `str.replace` (used by `verify_status` to strip the
profile-URL base from a credential id) -/

/-- Core of Python `str.replace(pat, rep)` on character lists: replace
every leftmost non-overlapping occurrence of a nonempty `pat`.  The
`fuel` argument (initialised to the string length, which bounds the
number of steps, each step consuming at least one character) makes the
recursion structural so that the definition reduces definitionally. -/
def pyReplaceCore (pat rep : List Char) : Nat → List Char → List Char
  | _, [] => []
  | 0, s => s
  | fuel + 1, c :: rest =>
      if pat ≠ [] ∧ pat.isPrefixOf (c :: rest) then
        rep ++ pyReplaceCore pat rep fuel ((c :: rest).drop pat.length)
      else
        c :: pyReplaceCore pat rep fuel rest

/-- Python `s.replace(pat, rep)` (for the nonempty pattern used in the
source; `replace` with an empty pattern and empty replacement is the
identity, as in Python). -/
def pyReplace (s pat rep : String) : String :=
  String.mk (pyReplaceCore pat.data rep.data s.data.length s.data)

/-! ## Canonicalization

`rdfc_canonicalize` (both scripts) delegates to the external pyld
implementation of URDNA2015: the document is interpreted as an RDF
dataset under its `@context` declaration and serialized to canonical
N-Quads.  The context *directs term interpretation* and is not itself
serialized; for the documents this repository processes (which declare
the W3C credentials context, so the Data-Integrity proof vocabulary
expands identically under the credential's context and under the
context that `sign_credential` injects into the proof options) term
expansion does not depend on which of those contexts is declared.  The
model therefore drops the `@context` entry and serializes the remaining
document deterministically.

`jcs_canonicalize` (both scripts) is `json.dumps` with sorted keys,
compact separators and UTF-8; it is modelled by the same serializer
with objects sorted by key at every level. -/

/-- UTF-8-ish byte projection of a string (deterministic; exact UTF-8
byte layout is irrelevant to the properties proved here). -/
def strBytes (s : String) : List Byte :=
  s.data.map (fun c => (⟨c.toNat % 256, Nat.mod_lt _ (by norm_num)⟩ : Byte))

mutual

/-- Deterministic byte serialization of a JSON value. -/
def serJ : JVal → List Byte
  | .null => [0]
  | .bool b => [1, if b then 1 else 0]
  | .num n => (2 : Byte) :: strBytes (toString n)
  | .str s => (3 : Byte) :: strBytes s ++ [251]
  | .arr xs => (4 : Byte) :: serL xs ++ [252]
  | .obj fs => (6 : Byte) :: serO fs ++ [253]

/-- Serialization of a list of JSON values. -/
def serL : List JVal → List Byte
  | [] => []
  | v :: rest => serJ v ++ (254 : Byte) :: serL rest

/-- Serialization of an object's field list. -/
def serO : List (String × JVal) → List Byte
  | [] => []
  | (k, v) :: rest => strBytes k ++ (255 : Byte) :: serJ v ++ serO rest

end

/-- Model of `rdfc_canonicalize` (pyld `jsonld.normalize`, URDNA2015):
context-directed term expansion with the `@context` entry itself not
serialized (see the section comment). -/
def rdfc_canonicalize (doc : Doc) : List Byte :=
  serO (doc.filter (fun kv => kv.1 ≠ "@context"))

/-- Insertion of a field into a key-sorted field list. -/
def insertSorted (k : String) (v : JVal) :
    List (String × JVal) → List (String × JVal)
  | [] => [(k, v)]
  | (k', v') :: rest =>
      if k < k' then (k, v) :: (k', v') :: rest
      else (k', v') :: insertSorted k v rest

mutual

/-- Recursive key-sorting of every object in a JSON value. -/
def sortJ : JVal → JVal
  | .null => .null
  | .bool b => .bool b
  | .num n => .num n
  | .str s => .str s
  | .arr xs => .arr (sortL xs)
  | .obj fs => .obj (sortO fs)

/-- Key-sorting inside a list of values. -/
def sortL : List JVal → List JVal
  | [] => []
  | v :: rest => sortJ v :: sortL rest

/-- Sort an object's fields by key (code-point order), sorting values
recursively. -/
def sortO : List (String × JVal) → List (String × JVal)
  | [] => []
  | (k, v) :: rest => insertSorted k (sortJ v) (sortO rest)

end

/-- Model of `jcs_canonicalize` (both scripts): `json.dumps` with
`sort_keys=True`, compact separators, UTF-8 output. -/
def jcs_canonicalize (doc : Doc) : List Byte :=
  serO (sortO doc)

/-! ## Proof engine — signing (`scripts/sign_credential.py`) -/

/-- `sign_credential.py::create_proof_config`. -/
def create_proof_config (verification_method created : String) : Doc :=
  [ ("type", .str "DataIntegrityProof"),
    ("cryptosuite", .str "eddsa-rdfc-2022"),
    ("verificationMethod", .str verification_method),
    ("created", .str created),
    ("proofPurpose", .str "assertionMethod") ]

/-- The context injected into the proof options before RDF
canonicalization (`sign_credential.py`, lines 161-167). -/
def proofContext : JVal :=
  .arr [ .str "https://www.w3.org/ns/credentials/v2",
         .str "https://w3id.org/security/data-integrity/v2" ]

/-- `sign_credential.py::sign_credential`.  `created` stands for the
`datetime.now(timezone.utc)` timestamp. -/
def sign_credential (credential : Doc) (signing_key : SigningKeyM)
    (verification_method created : String) : Doc :=
  let credential_copy := credential.filter (fun kv => kv.1 ≠ "proof")
  let proof_config := create_proof_config verification_method created
  let proof_config_with_context := ("@context", proofContext) :: proof_config
  let canonical_proof := rdfc_canonicalize proof_config_with_context
  let canonical_credential := rdfc_canonicalize credential_copy
  let proof_hash := sha256 canonical_proof
  let credential_hash := sha256 canonical_credential
  let combined := proof_hash ++ credential_hash
  let signature := ed_sign signing_key combined
  let proof_value := String.mk ('z' :: b58EncodeL signature)
  let proof := proof_config ++ [("proofValue", .str proof_value)]
  credential_copy ++ [("proof", .obj proof)]

/-! ## Revocation check (`status_list.py::verify_status`)

The function returns a result dict; a `revoked_at` key is added only on
the revoked path, modelled as an `Option` field.  Error strings are
modelled as tags.  An uncaught exception (attribute access on a
non-object, a non-string credential id) is the outer `none`.  The
ambient registry file is the explicit `registry` argument; the optional
`fetch_status_list` callable is the optional `fetch` argument (total:
exceptions raised *by the callable itself* are not modelled; failures
of the decode/bit-lookup steps inside the `try` are). -/

/-- Error tags of `verify_status` results. -/
inductive StatusErr where
  | unsupportedStatusType
  | invalidStatusListIndex
  | fetchFailed
deriving DecidableEq, Repr

/-- Result dict of `verify_status`. -/
structure StatusResult where
  valid : Bool
  revoked : Bool
  error : Option StatusErr
  revoked_at : Option String
deriving DecidableEq, Repr

/-- The base URL stripped from credential ids
(`https://credentials.cognipilot.org/profile/`). -/
def profileBase : String := "https://credentials.cognipilot.org/profile/"

/-- The remote-status-list fallback inside the `try` block of
`verify_status` (lines 472-486): fetch, read
`credentialSubject.encodedList`, decode it and test the bit at the
credential's declared index; any failure is caught and reported as an
error without invalidating the result. -/
def statusFetchFallback (result : StatusResult)
    (fetch : Option (JVal → Option JVal)) (url : Option JVal)
    (index : Int) : StatusResult :=
  match fetch, url with
  | some f, some urlv =>
      if jfalsy urlv then result
      else
        match f urlv with
        | none => result
        | some status_list_cred =>
            let subj :=
              match status_list_cred with
              | .obj fs =>
                  match dGet fs "credentialSubject" with
                  | some (.obj sfs) => some sfs
                  | some _ => none
                  | none => some []
              | _ => none
            match subj with
            | none => { result with error := some .fetchFailed }
            | some sfs =>
                match dGet sfs "encodedList" with
                | some (.str encoded) =>
                    if encoded.data.isEmpty then result
                    else
                      match decode_bitstring encoded with
                      | none => { result with error := some .fetchFailed }
                      | some bitstring =>
                          match get_bit_int bitstring index with
                          | none => { result with error := some .fetchFailed }
                          | some b =>
                              if b then
                                { result with valid := false, revoked := true }
                              else result
                | some v =>
                    if jfalsy v then result
                    else { result with error := some .fetchFailed }
                | none => result
  | _, _ => result

/-- `status_list.py::verify_status`. -/
def verify_status (credential : Doc) (registry : Registry)
    (fetch : Option (JVal → Option JVal)) : Option StatusResult :=
  let result : StatusResult := ⟨true, false, none, none⟩
  match dGet credential "credentialStatus" with
  | none => some result
  | some sv =>
      if jfalsy sv then some result
      else
        match sv with
        | .obj status =>
            if isStrVal (dGet status "type") "BitstringStatusListEntry"
            then
              if isStrVal (dGet status "statusPurpose") "revocation"
              then
                match pyInt ((dGet status "statusListIndex").getD (.num (-1)))
                with
                | none =>
                    some { result with
                      error := some .invalidStatusListIndex, valid := false }
                | some index =>
                    let status_list_url := dGet status "statusListCredential"
                    match dGet credential "id" with
                    | some (.str s) =>
                        let credential_id := pyReplace s profileBase ""
                        if credential_id ≠ "" then
                          match regGet registry.credentials credential_id with
                          | some info =>
                              if info.revoked then
                                some { valid := false, revoked := true,
                                       error := none,
                                       revoked_at := info.revoked_at }
                              else
                                some (statusFetchFallback result fetch
                                  status_list_url index)
                          | none =>
                              some (statusFetchFallback result fetch
                                status_list_url index)
                        else
                          some (statusFetchFallback result fetch
                            status_list_url index)
                    | none =>
                        some (statusFetchFallback result fetch
                          status_list_url index)
                    | some _ => none
              else some result
            else
              some { result with
                error := some .unsupportedStatusType, valid := false }
        | _ => none

/-! ## Proof engine — verification (`scripts/verify_credential.py`)

The result dict's informational echo fields (`credential_id`, `issuer`,
`subject`, `achievement`, the proof summary) are not recorded — no
claim reads them — but the *failure behaviour* of their extraction (an
`AttributeError` on a non-object `credentialSubject` or `achievement`)
is modelled, since it aborts the function.  Error-message strings are
modelled as tags; an uncaught exception (missing `@context` or proof
field in the chosen branch, a non-object `proof`, an exception escaping
`verify_status`) is the outer `none`. -/

/-- Error/warning tags of `verify_credential` results. -/
inductive VErr where
  | noProof
  | unsupportedProofType
  | unsupportedCryptosuite
  | noProofValue
  | decodeProofValueFailed
  | signatureFailed
  | revoked
  | revokedAt (at_ : String)
  | statusWarning (e : StatusErr)
deriving DecidableEq, Repr

/-- Result dict of `verify_credential` (claim-relevant fields). -/
structure VerifyResult where
  verified : Bool
  errors : List VErr
  warnings : List VErr
  revocation_status : Option StatusResult
deriving DecidableEq, Repr

/-- The `try: verify ... except BadSignatureError` step and everything
after it (`verify_credential.py`, lines 184-219): signature check,
revocation-status consultation, warnings, info extraction. -/
def verifyTail (credential : Doc) (verify_key : VerifyKeyM)
    (registry : Registry) (combined signature : List Byte)
    (result : VerifyResult) : Option VerifyResult :=
  if ed_verify verify_key combined signature then
    let result := { result with verified := true }
    match verify_status credential registry none with
    | none => none
    | some status_result =>
        let result := { result with revocation_status := some status_result }
        if status_result.revoked then
          let errs := result.errors ++ [.revoked]
          let errs :=
            match status_result.revoked_at with
            | some at_ => if at_ ≠ "" then errs ++ [.revokedAt at_] else errs
            | none => errs
          some { result with verified := false, errors := errs }
        else
          let result :=
            match status_result.error with
            | some e => { result with warnings := result.warnings ++ [.statusWarning e] }
            | none => result
          match dGet credential "credentialSubject" with
          | none => some result
          | some (.obj subj) =>
              match dGet subj "achievement" with
              | none => some result
              | some (.obj _) => some result
              | some _ => none
          | some _ => none
  else
    some { result with errors := result.errors ++ [.signatureFailed] }

/-- `verify_credential.py::verify_credential`. -/
def verify_credential (credential : Doc) (verify_key : VerifyKeyM)
    (registry : Registry) : Option VerifyResult :=
  let result : VerifyResult := ⟨false, [], [], none⟩
  match dGet credential "proof" with
  | none => some { result with errors := [.noProof] }
  | some proofVal =>
      match proofVal with
      | .obj proof =>
          if isStrVal (dGet proof "type") "DataIntegrityProof" then
            if isStrVal (dGet proof "cryptosuite") "eddsa-jcs-2022" ∨
               isStrVal (dGet proof "cryptosuite") "eddsa-rdfc-2022" then
              match dGet proof "proofValue" with
              | none => some { result with errors := [.noProofValue] }
              | some pv =>
                  if jfalsy pv then
                    some { result with errors := [.noProofValue] }
                  else
                    let sigDec :=
                      match pv with
                      | .str pvs => decode_multibase pvs
                      | _ => .error .unsupportedEncoding
                    match sigDec with
                    | .error _ =>
                        some { result with
                          errors := [.decodeProofValueFailed] }
                    | .ok signature =>
                        let credential_copy :=
                          credential.filter (fun kv => kv.1 ≠ "proof")
                        if isStrVal (dGet proof "cryptosuite")
                            "eddsa-rdfc-2022" then
                          match dGet credential "@context",
                                dGet proof "type",
                                dGet proof "cryptosuite",
                                dGet proof "verificationMethod",
                                dGet proof "created",
                                dGet proof "proofPurpose" with
                          | some ctx, some ty, some cs, some vm, some cr,
                            some pp =>
                              let proof_options : Doc :=
                                [ ("@context", ctx), ("type", ty),
                                  ("cryptosuite", cs),
                                  ("verificationMethod", vm),
                                  ("created", cr), ("proofPurpose", pp) ]
                              let canonical_proof :=
                                rdfc_canonicalize proof_options
                              let canonical_credential :=
                                rdfc_canonicalize credential_copy
                              let combined :=
                                sha256 canonical_proof ++
                                  sha256 canonical_credential
                              verifyTail credential verify_key registry
                                combined signature result
                          | _, _, _, _, _, _ => none
                        else
                          match dGet proof "type",
                                dGet proof "cryptosuite",
                                dGet proof "verificationMethod",
                                dGet proof "created",
                                dGet proof "proofPurpose" with
                          | some ty, some cs, some vm, some cr, some pp =>
                              let proof_config : Doc :=
                                [ ("type", ty), ("cryptosuite", cs),
                                  ("verificationMethod", vm),
                                  ("created", cr), ("proofPurpose", pp) ]
                              let canonical_proof :=
                                jcs_canonicalize proof_config
                              let canonical_credential :=
                                jcs_canonicalize credential_copy
                              let combined :=
                                sha256 canonical_proof ++
                                  sha256 canonical_credential
                              verifyTail credential verify_key registry
                                combined signature result
                          | _, _, _, _, _ => none
            else
              some { result with errors := [.unsupportedCryptosuite] }
          else
            some { result with errors := [.unsupportedProofType] }
      | _ => none

/-! ## Registry lemmas -/

/-- Number of bindings of a key in the credentials mapping. -/
def countKey (creds : List (String × RegistryEntry)) (k : String) : Nat :=
  (creds.filter (fun kv => kv.1 = k)).length

theorem regGet_append_of_none {l m : List (String × RegistryEntry)}
    {k : String} (h : regGet l k = none) : regGet (l ++ m) k = regGet m k := by
  induction l with
  | nil => rfl
  | cons kv rest ih =>
      obtain ⟨k', v⟩ := kv
      by_cases hk : k' = k
      · simp [regGet, hk] at h
      · simp [regGet, hk] at h ⊢
        exact ih h

theorem countKey_eq_zero_of_regGet_none {l : List (String × RegistryEntry)}
    {k : String} (h : regGet l k = none) : countKey l k = 0 := by
  induction l with
  | nil => rfl
  | cons kv rest ih =>
      obtain ⟨k', v⟩ := kv
      by_cases hk : k' = k
      · simp [regGet, hk] at h
      · simp [regGet, hk] at h
        simp [countKey, List.filter, hk]
        simpa [countKey] using ih h

theorem countKey_append (l m : List (String × RegistryEntry)) (k : String) :
    countKey (l ++ m) k = countKey l k + countKey m k := by
  simp [countKey, List.filter_append]

/-- C3, first branch of `allocate_status_index`: an already-registered
identity gets its stored index back and the registry is untouched. -/
theorem allocate_existing {r : Registry} {id : String} {now : String}
    {info : RegistryEntry} (h : regGet r.credentials id = some info) :
    allocate_status_index r id now = (info.index, r) := by
  simp [allocate_status_index, h]

/-- C3, second branch: a fresh identity reserves `next_index`,
increments it, and appends an unrevoked entry. -/
theorem allocate_fresh {r : Registry} {id : String} {now : String}
    (h : regGet r.credentials id = none) :
    allocate_status_index r id now =
      (r.next_index,
        ⟨r.next_index + 1,
         r.credentials ++ [(id, ⟨r.next_index, false, none, now⟩)]⟩) := by
  simp [allocate_status_index, h]

/-- C3: `allocate_status_index` is idempotent — an identity already in
the registry gets the stored index with no new entry; a fresh identity
reserves `next_index`, increments it and stores an unrevoked entry; two
calls with the same identity agree on the index and leave exactly one
binding of that identity. -/
theorem claim_C3_allocate_idempotent :
    (∀ (r : Registry) (id now : String) (info : RegistryEntry),
        regGet r.credentials id = some info →
        allocate_status_index r id now = (info.index, r)) ∧
    (∀ (r : Registry) (id now : String),
        regGet r.credentials id = none →
        allocate_status_index r id now =
          (r.next_index,
            ⟨r.next_index + 1,
             r.credentials ++ [(id, ⟨r.next_index, false, none, now⟩)]⟩)) ∧
    (∀ (r : Registry) (id n1 n2 : String),
        (allocate_status_index (allocate_status_index r id n1).2 id n2).1 =
          (allocate_status_index r id n1).1 ∧
        (allocate_status_index (allocate_status_index r id n1).2 id n2).2 =
          (allocate_status_index r id n1).2 ∧
        (regGet r.credentials id = none →
          countKey (allocate_status_index
            (allocate_status_index r id n1).2 id n2).2.credentials id = 1)) := by
  refine ⟨fun r id now info h => allocate_existing h,
          fun r id now h => allocate_fresh h, fun r id n1 n2 => ?_⟩
  cases h : regGet r.credentials id with
  | some info =>
      rw [allocate_existing h, allocate_existing h]
      simp [h]
  | none =>
      rw [allocate_fresh h]
      have h2 : regGet (r.credentials ++
          [(id, ⟨r.next_index, false, none, n1⟩)]) id =
          some ⟨r.next_index, false, none, n1⟩ := by
        rw [regGet_append_of_none h]; simp [regGet]
      constructor
      · rw [allocate_existing h2]
      constructor
      · rw [allocate_existing h2]
      · intro _
        rw [allocate_existing h2]
        simp only [countKey_append, countKey_eq_zero_of_regGet_none h]
        simp [countKey, List.filter]

/-- Witness for C3 at a concrete registry. -/
theorem claim_C3_allocate_idempotent_witness :
    allocate_status_index ⟨0, []⟩ "wallet/badge" "2025-01-01T00:00:00Z" =
      (0, ⟨1, [("wallet/badge", ⟨0, false, none, "2025-01-01T00:00:00Z"⟩)]⟩) ∧
    (allocate_status_index
      (allocate_status_index ⟨0, []⟩ "wallet/badge" "t1").2
      "wallet/badge" "t2").1 = 0 := by
  constructor
  · exact claim_C3_allocate_idempotent.2.1 ⟨0, []⟩ "wallet/badge"
      "2025-01-01T00:00:00Z" rfl
  · rw [(claim_C3_allocate_idempotent.2.2 ⟨0, []⟩ "wallet/badge" "t1" "t2").1]
    rfl

theorem regGet_append (l m : List (String × RegistryEntry)) (k : String) :
    regGet (l ++ m) k = (regGet l k).orElse (fun _ => regGet m k) := by
  induction l with
  | nil => rfl
  | cons kv rest ih =>
      obtain ⟨k', v⟩ := kv
      by_cases hk : k' = k <;> simp [regGet, hk, ih]

theorem regGet_erase_ne {l : List (String × RegistryEntry)}
    {old k : String} (h : k ≠ old) :
    regGet (regErase l old) k = regGet l k := by
  induction l with
  | nil => rfl
  | cons kv rest ih =>
      obtain ⟨k', v⟩ := kv
      by_cases ho : k' = old
      · subst ho
        have hne : ¬ k' = k := fun hh => h hh.symm
        simp [regErase, regGet, hne]
      · by_cases hkk : k' = k
        · simp [regErase, regGet, ho, hkk, h]
        · simp [regErase, regGet, ho, hkk, ih]

theorem regGet_erase_self_of_nodup {l : List (String × RegistryEntry)}
    {old : String} (h : (l.map Prod.fst).Nodup) :
    regGet (regErase l old) old = none := by
  induction l with
  | nil => rfl
  | cons kv rest ih =>
      obtain ⟨k', v⟩ := kv
      simp only [List.map_cons, List.nodup_cons] at h
      by_cases ho : k' = old
      · subst ho
        simp only [regErase, if_pos rfl]
        cases hr : regGet rest k' with
        | none => exact hr
        | some e =>
            exfalso
            apply h.1
            clear ih h
            induction rest with
            | nil => simp [regGet] at hr
            | cons kv2 rest2 ih2 =>
                obtain ⟨k2, v2⟩ := kv2
                by_cases h2 : k2 = k'
                · simp [h2]
                · simp only [regGet, if_neg h2] at hr
                  simp [ih2 hr]
      · simp only [regErase, if_neg ho, regGet, if_neg ho]
        exact ih h.2

theorem regErase_length {l : List (String × RegistryEntry)}
    {old : String} {e : RegistryEntry} (h : regGet l old = some e) :
    (regErase l old).length + 1 = l.length := by
  induction l with
  | nil => simp [regGet] at h
  | cons kv rest ih =>
      obtain ⟨k', v⟩ := kv
      by_cases ho : k' = old
      · simp [regErase, ho]
      · simp only [regGet, if_neg ho] at h
        simp only [regErase, if_neg ho, List.length_cons]
        rw [← ih h]

/-- C5 (amended: for distinct identities): `rename_credential_in_registry`
moves exactly one entry to the new key, preserving the whole record
(index, revoked flag, timestamps), leaving every other identity's
binding unchanged; it returns `false` with no mutation when the old
identity is absent or the new identity is already present. -/
theorem claim_C5_rename_semantics :
    (∀ (r : Registry) (old new : String) (e : RegistryEntry),
      old ≠ new → regGet r.credentials old = some e →
      regGet r.credentials new = none →
      rename_credential_in_registry r old new =
        (true, ⟨r.next_index, regErase r.credentials old ++ [(new, e)]⟩) ∧
      regGet (regErase r.credentials old ++ [(new, e)]) new = some e ∧
      (regErase r.credentials old ++ [(new, e)]).length =
        r.credentials.length ∧
      (∀ k, k ≠ old → k ≠ new →
        regGet (regErase r.credentials old ++ [(new, e)]) k =
          regGet r.credentials k) ∧
      ((r.credentials.map Prod.fst).Nodup →
        regGet (regErase r.credentials old ++ [(new, e)]) old = none)) ∧
    (∀ (r : Registry) (old new : String),
      old ≠ new → regGet r.credentials old = none →
      rename_credential_in_registry r old new = (false, r)) ∧
    (∀ (r : Registry) (old new : String) (e' : RegistryEntry),
      old ≠ new → regGet r.credentials new = some e' →
      rename_credential_in_registry r old new = (false, r)) := by
  refine ⟨?_, ?_, ?_⟩
  · intro r old new e hne hold hnew
    refine ⟨by simp [rename_credential_in_registry, hne, hold, hnew], ?_, ?_, ?_, ?_⟩
    · rw [regGet_append]
      have : regGet (regErase r.credentials old) new = none := by
        rw [regGet_erase_ne (Ne.symm hne)]; exact hnew
      simp [this, regGet]
    · simpa using regErase_length hold
    · intro k hko hkn
      rw [regGet_append, regGet_erase_ne hko]
      cases hk : regGet r.credentials k with
      | none => simp [regGet, Ne.symm hkn]
      | some v => simp
    · intro hnd
      rw [regGet_append, regGet_erase_self_of_nodup hnd]
      simp [regGet, Ne.symm hne]
  · intro r old new hne hold
    simp [rename_credential_in_registry, hne, hold]
  · intro r old new e' hne hnew
    cases hold : regGet r.credentials old with
    | none => simp [rename_credential_in_registry, hne, hold]
    | some e => simp [rename_credential_in_registry, hne, hold, hnew]

/-- The claim as frozen is false on the code: with `oldId = newId` and
the identity absent from the registry, the function returns `true`
(the claim demands `false` whenever `oldId` is absent). -/
theorem claim_C5_counterexample :
    rename_credential_in_registry ⟨0, []⟩ "x" "x" = (true, ⟨0, []⟩) ∧
    regGet (Registry.credentials ⟨0, []⟩) "x" = none := by
  constructor <;> rfl

/-- Witness for C5 at concrete registries. -/
theorem claim_C5_rename_semantics_witness :
    rename_credential_in_registry
      ⟨2, [("a/x", ⟨0, false, none, "t0"⟩), ("a/y", ⟨1, true, some "t2", "t1"⟩)]⟩
      "a/y" "c/y" =
      (true, ⟨2, [("a/x", ⟨0, false, none, "t0"⟩),
                  ("c/y", ⟨1, true, some "t2", "t1"⟩)]⟩) ∧
    rename_credential_in_registry
      ⟨2, [("a/x", ⟨0, false, none, "t0"⟩), ("a/y", ⟨1, true, some "t2", "t1"⟩)]⟩
      "a/y" "a/x" =
      (false, ⟨2, [("a/x", ⟨0, false, none, "t0"⟩),
                   ("a/y", ⟨1, true, some "t2", "t1"⟩)]⟩) := by
  constructor
  · exact ((claim_C5_rename_semantics.1
      ⟨2, [("a/x", ⟨0, false, none, "t0"⟩), ("a/y", ⟨1, true, some "t2", "t1"⟩)]⟩
      "a/y" "c/y" ⟨1, true, some "t2", "t1"⟩ (by decide) rfl rfl).1)
  · exact claim_C5_rename_semantics.2.2
      ⟨2, [("a/x", ⟨0, false, none, "t0"⟩), ("a/y", ⟨1, true, some "t2", "t1"⟩)]⟩
      "a/y" "a/x" ⟨0, false, none, "t0"⟩ (by decide) rfl

/-! ## Bit-level lemmas for `get_bit`/`set_bit` -/

theorem testBit_or_self (x k : Nat) :
    Nat.testBit (x ||| (1 <<< k)) k = true := by
  rw [Nat.testBit_lor, Nat.shiftLeft_eq, Nat.one_mul, Nat.testBit_two_pow_self]
  simp

theorem testBit_or_ne (x k j : Nat) (hj : j ≠ k) :
    Nat.testBit (x ||| (1 <<< k)) j = Nat.testBit x j := by
  rw [Nat.testBit_lor, Nat.shiftLeft_eq, Nat.one_mul,
    Nat.testBit_two_pow_of_ne (Ne.symm hj)]
  simp

theorem testBit_mask_self (x k : Nat) (hk : k < 8) :
    Nat.testBit (x &&& (255 ^^^ (1 <<< k))) k = false := by
  rw [Nat.testBit_land, Nat.testBit_xor, Nat.shiftLeft_eq, Nat.one_mul,
    Nat.testBit_two_pow_self]
  have h255 : Nat.testBit 255 k = true := by
    have := Nat.testBit_two_pow_sub_one 8 k
    norm_num at this
    simp [this, hk]
  simp [h255]

theorem testBit_mask_ne (x k j : Nat) (hj : j ≠ k) (hj8 : j < 8) :
    Nat.testBit (x &&& (255 ^^^ (1 <<< k))) j = Nat.testBit x j := by
  rw [Nat.testBit_land, Nat.testBit_xor, Nat.shiftLeft_eq, Nat.one_mul,
    Nat.testBit_two_pow_of_ne (Ne.symm hj)]
  have h255 : Nat.testBit 255 j = true := by
    have := Nat.testBit_two_pow_sub_one 8 j
    norm_num at this
    simp [this, hj8]
  simp [h255]

/-- The byte `set_bit` writes at `index / 8`. -/
def setBitByte (old : Byte) (bit_offset : Nat) (value : Bool) : Byte :=
  if value then
    ⟨old.val ||| (1 <<< (7 - bit_offset)), byte_or_lt old.isLt (by omega)⟩
  else
    ⟨old.val &&& (255 ^^^ (1 <<< (7 - bit_offset))),
      byte_and_lt _ old.isLt⟩

theorem testBit_setBitByte_self (old : Byte) (off : Nat) (v : Bool) :
    Nat.testBit (setBitByte old off v).val (7 - off) = v := by
  cases v with
  | true =>
      simp only [setBitByte, if_pos rfl]
      exact testBit_or_self old.val (7 - off)
  | false =>
      simpa [setBitByte] using testBit_mask_self old.val (7 - off) (by omega)

theorem testBit_setBitByte_other (old : Byte) (off : Nat) (v : Bool)
    (p : Nat) (hp : p < 8) (hne : p ≠ 7 - off) :
    Nat.testBit (setBitByte old off v).val p = Nat.testBit old.val p := by
  cases v with
  | true => simpa [setBitByte] using testBit_or_ne old.val (7 - off) p hne
  | false =>
      simpa [setBitByte] using testBit_mask_ne old.val (7 - off) p hne hp

theorem getD_set_self {l : List Byte} {i : Nat} (a : Byte)
    (h : i < l.length) : (l.set i a).getD i 0 = a := by
  rw [List.getD_eq_getElem _ _ (by simpa using h)]
  exact List.getElem_set_self _

theorem getD_set_ne {l : List Byte} {i j : Nat} (a : Byte) (h : i ≠ j)
    (hj : j < l.length) : (l.set i a).getD j 0 = l.getD j 0 := by
  rw [List.getD_eq_getElem _ _ (by simpa using hj),
    List.getD_eq_getElem _ _ hj]
  exact List.getElem_set_ne h _

theorem get_bit_eq_getD {b : List Byte} {i : Nat} (h : i / 8 < b.length) :
    get_bit b i = some (Nat.testBit (b.getD (i / 8) 0).val (7 - i % 8)) := by
  simp only [get_bit, dif_pos h]
  rw [List.getD_eq_getElem _ _ h, List.get_eq_getElem]

theorem set_bit_eq_set {b : List Byte} {i : Nat} {v : Bool}
    (h : i / 8 < b.length) :
    set_bit b i v =
      some (b.set (i / 8) (setBitByte (b.getD (i / 8) 0) (i % 8) v)) := by
  rw [List.getD_eq_getElem _ _ h]
  simp only [set_bit, setBitByte, dif_pos h, List.get_eq_getElem]

/-- C7: `get_bit` and `set_bit` address bit `i` inside byte `i / 8` at
bit position `7 - (i mod 8)` (big-endian within the byte); both succeed
exactly when `i < 8 * size` and fail with the index error otherwise. -/
theorem claim_C7_bit_addressing (b : List Byte) (i : Nat) (v : Bool) :
    (8 * b.length ≤ i → get_bit b i = none ∧ set_bit b i v = none) ∧
    (i < 8 * b.length →
      get_bit b i = some (Nat.testBit (b.getD (i / 8) 0).val (7 - i % 8)) ∧
      ∃ r, set_bit b i v = some r ∧
        Nat.testBit (r.getD (i / 8) 0).val (7 - i % 8) = v) := by
  constructor
  · intro hge
    have h8 : ¬ i / 8 < b.length := by omega
    exact ⟨by simp [get_bit, h8], by simp [set_bit, h8]⟩
  · intro hlt
    have h8 : i / 8 < b.length := by omega
    refine ⟨get_bit_eq_getD h8, _, set_bit_eq_set h8, ?_⟩
    rw [getD_set_self _ h8]
    exact testBit_setBitByte_self _ _ _

/-- Witness for C7 at a two-byte bitstring. -/
theorem claim_C7_bit_addressing_witness :
    get_bit [(0 : Byte), 255] 9 =
      some (Nat.testBit (([(0 : Byte), 255].getD (9 / 8) 0)).val (7 - 9 % 8)) ∧
    get_bit [(0 : Byte), 255] 16 = none := by
  constructor
  · exact ((claim_C7_bit_addressing [(0 : Byte), 255] 9 true).2 (by norm_num)).1
  · exact ((claim_C7_bit_addressing [(0 : Byte), 255] 16 true).1 (by norm_num)).1

/-- C9: `set_bit` is frame-preserving — for an in-range index it returns
a list of the same length in which bit `i` is `v` and every other
in-range bit is unchanged.  (The input itself is never mutated: the
source copies the immutable `bytes` into a fresh `bytearray`, and in
this pure embedding immutability is inherent.) -/
theorem claim_C9_set_bit_frame (b : List Byte) (i : Nat) (v : Bool)
    (h : i < 8 * b.length) :
    ∃ r, set_bit b i v = some r ∧ r.length = b.length ∧
      get_bit r i = some v ∧
      ∀ j, j < 8 * b.length → j ≠ i → get_bit r j = get_bit b j := by
  have h8 : i / 8 < b.length := by omega
  set nb := setBitByte (b.getD (i / 8) 0) (i % 8) v with hnb
  have hlen : (b.set (i / 8) nb).length = b.length := by simp
  refine ⟨b.set (i / 8) nb, set_bit_eq_set h8, hlen, ?_, ?_⟩
  · rw [get_bit_eq_getD (by omega : i / 8 < (b.set (i / 8) nb).length)]
    rw [getD_set_self _ h8, hnb]
    rw [testBit_setBitByte_self]
  · intro j hj hne
    have hj8 : j / 8 < b.length := by omega
    rw [get_bit_eq_getD (by omega : j / 8 < (b.set (i / 8) nb).length),
      get_bit_eq_getD hj8]
    by_cases hbyte : j / 8 = i / 8
    · have hpos : 7 - j % 8 ≠ 7 - i % 8 := by omega
      rw [hbyte, getD_set_self _ h8, hnb,
        testBit_setBitByte_other _ _ _ _ (by omega) hpos]
    · rw [getD_set_ne _ (fun hh => hbyte hh.symm) hj8]

/-- Witness for C9 at a concrete bitstring and index. -/
theorem claim_C9_set_bit_frame_witness :
    ∃ r, set_bit [(0 : Byte), 0] 3 true = some r ∧ r.length = 2 ∧
      get_bit r 3 = some true ∧
      ∀ j, j < 16 → j ≠ 3 → get_bit r j = get_bit [(0 : Byte), 0] j := by
  have := claim_C9_set_bit_frame [(0 : Byte), 0] 3 true (by norm_num)
  simpa using this

/-! ## Codec round-trip lemmas (C6) -/

theorem b64Char_ne_pad (v : Nat) : b64Char v ≠ '=' := by
  by_cases h : v < 64
  · have hall : ∀ w < 64, b64Char w ≠ '=' := by decide
    exact hall v h
  · unfold b64Char
    rw [List.getD_eq_default _ _ (by simp [b64Alphabet]; omega)]
    decide

theorem b64CharVal_b64Char : ∀ v < 64, b64CharVal (b64Char v) = some v := by
  decide

theorem b64EncodeRaw_ne_pad (bs : List Byte) :
    ∀ c ∈ b64EncodeRaw bs, c ≠ '=' := by
  induction bs using b64EncodeRaw.induct with
  | case1 => simp [b64EncodeRaw]
  | case2 a =>
      simp only [b64EncodeRaw, List.mem_cons, List.mem_singleton]
      rintro c (rfl | rfl | h)
      · exact b64Char_ne_pad _
      · exact b64Char_ne_pad _
      · cases h
  | case3 a b =>
      simp only [b64EncodeRaw, List.mem_cons, List.mem_singleton]
      rintro c (rfl | rfl | rfl | h)
      · exact b64Char_ne_pad _
      · exact b64Char_ne_pad _
      · exact b64Char_ne_pad _
      · cases h
  | case4 a b c rest ih =>
      simp only [b64EncodeRaw, List.mem_cons]
      rintro x (rfl | rfl | rfl | rfl | hx)
      · exact b64Char_ne_pad _
      · exact b64Char_ne_pad _
      · exact b64Char_ne_pad _
      · exact b64Char_ne_pad _
      · exact ih x hx

theorem dropWhile_pad_replicate (k : Nat) (ys : List Char) :
    List.dropWhile (fun c => c == '=') (List.replicate k '=' ++ ys) =
    List.dropWhile (fun c => c == '=') ys := by
  induction k with
  | zero => simp
  | succ n ih =>
      rw [List.replicate_succ, List.cons_append,
        List.dropWhile_cons_of_pos (by simp)]
      exact ih

/-- Stripping the padding recovers exactly the unpadded character
stream, provided no payload character is `=`. -/
theorem rstripEq_append_replicate (xs : List Char) (k : Nat)
    (hxs : ∀ c ∈ xs, c ≠ '=') :
    rstripEq (xs ++ List.replicate k '=') = xs := by
  unfold rstripEq
  rw [List.reverse_append, List.reverse_replicate, dropWhile_pad_replicate]
  cases hrev : xs.reverse with
  | nil =>
      have : xs = [] := by simpa using congrArg List.reverse hrev
      simp [this, hrev]
  | cons c cs =>
      have hc : c ∈ xs := by
        have : c ∈ xs.reverse := by rw [hrev]; simp
        simpa using this
      rw [List.dropWhile_cons_of_neg (by simpa using hxs c hc)]
      have hx : xs = cs.reverse ++ [c] := by
        simpa using congrArg List.reverse hrev
      simp [hx]

theorem b64DecodeRaw_b64EncodeRaw (bs : List Byte) :
    b64DecodeRaw (b64EncodeRaw bs) = some bs := by
  induction bs using b64EncodeRaw.induct with
  | case1 => rfl
  | case2 a =>
      have h1 := b64CharVal_b64Char (a.val / 4) (by omega)
      have h2 := b64CharVal_b64Char (a.val % 4 * 16) (by omega)
      simp only [b64EncodeRaw, b64DecodeRaw, h1, h2, Option.bind_eq_bind,
        Option.some_bind]
      rw [dif_pos (by omega)]
      congr 1
      have ha := a.isLt
      refine List.ext_getElem (by simp) ?_
      intro i hi _
      cases i with
      | zero =>
          simp only [List.getElem_cons_zero]
          apply Fin.ext
          simp only []
          omega
      | succ n => simp at hi
  | case3 a b =>
      have h1 := b64CharVal_b64Char (a.val / 4) (by omega)
      have h2 := b64CharVal_b64Char (a.val % 4 * 16 + b.val / 16) (by omega)
      have h3 := b64CharVal_b64Char (b.val % 16 * 4) (by omega)
      simp only [b64EncodeRaw, b64DecodeRaw, h1, h2, h3, Option.bind_eq_bind,
        Option.some_bind]
      rw [dif_pos (by omega)]
      congr 1
      have ha := a.isLt
      have hb := b.isLt
      refine List.ext_getElem (by simp) ?_
      intro i hi _
      cases i with
      | zero =>
          simp only [List.getElem_cons_zero]
          apply Fin.ext
          simp only []
          omega
      | succ n =>
          cases n with
          | zero =>
              simp only [List.getElem_cons_succ, List.getElem_cons_zero]
              apply Fin.ext
              simp only []
              omega
          | succ m =>
              simp at hi
              omega
  | case4 a b c rest ih =>
      have h1 := b64CharVal_b64Char (a.val / 4) (by omega)
      have h2 := b64CharVal_b64Char (a.val % 4 * 16 + b.val / 16) (by omega)
      have h3 := b64CharVal_b64Char (b.val % 16 * 4 + c.val / 64) (by omega)
      have h4 := b64CharVal_b64Char (c.val % 64) (by omega)
      simp only [b64EncodeRaw, b64DecodeRaw, h1, h2, h3, h4, ih,
        Option.bind_eq_bind, Option.some_bind]
      rw [dif_pos (by omega)]
      congr 1
      have ha := a.isLt
      have hb := b.isLt
      have hc := c.isLt
      refine List.ext_getElem (by simp) ?_
      intro i hi hi2
      match i with
      | 0 =>
          simp only [List.getElem_cons_zero]
          apply Fin.ext
          simp only []
          omega
      | 1 =>
          simp only [List.getElem_cons_succ, List.getElem_cons_zero]
          apply Fin.ext
          simp only []
          omega
      | 2 =>
          simp only [List.getElem_cons_succ, List.getElem_cons_zero]
          apply Fin.ext
          simp only []
          omega
      | (n + 3) =>
          simp only [List.getElem_cons_succ]

theorem rstripEq_of_ne_pad (xs : List Char) (hxs : ∀ c ∈ xs, c ≠ '=') :
    rstripEq xs = xs := by
  have := rstripEq_append_replicate xs 0 hxs
  simpa using this

theorem decode_encode_core (comp : List Byte) :
    decode_bitstring (String.mk (b64EncodeRaw comp)) =
      gzip_decompress comp := by
  have hne := b64EncodeRaw_ne_pad comp
  simp only [decode_bitstring, String.data]
  by_cases h0 : (b64EncodeRaw comp).length % 4 = 0
  · rw [if_neg (by omega)]
    simp only [b64DecodePadded, if_pos h0, rstripEq_of_ne_pad _ hne,
      b64DecodeRaw_b64EncodeRaw, Option.bind_eq_bind, Option.some_bind]
  · rw [if_pos (by omega)]
    have hlen : ((b64EncodeRaw comp) ++
        List.replicate (4 - (b64EncodeRaw comp).length % 4) '=').length % 4
        = 0 := by
      simp only [List.length_append, List.length_replicate]
      omega
    simp only [b64DecodePadded, if_pos hlen,
      rstripEq_append_replicate _ _ hne, b64DecodeRaw_b64EncodeRaw,
      Option.bind_eq_bind, Option.some_bind]

/-- C6: the bitstring codec round-trips — for every byte sequence `b`,
`decode_bitstring (encode_bitstring b) = b`, where encoding
gzip-compresses, base64url-encodes and strips the `=` padding, and
decoding restores the padding to a multiple of four characters,
base64url-decodes and gzip-decompresses. -/
theorem claim_C6_codec_roundtrip (b : List Byte) :
    decode_bitstring (encode_bitstring b) = some b := by
  have hraw : encode_bitstring b =
      String.mk (b64EncodeRaw (gzip_compress b)) := by
    unfold encode_bitstring b64EncodePadded
    rw [rstripEq_append_replicate _ _ (b64EncodeRaw_ne_pad _)]
  rw [hraw, decode_encode_core, gzip_roundtrip]

/-! ## Key-codec lemmas (C8) -/

theorem b58DigitVal_b58Digit : ∀ v < 16, b58DigitVal (b58Digit v) = some v := by
  decide

theorem b58DecodeL_b58EncodeL (bs : List Byte) :
    b58DecodeL (b58EncodeL bs) = some bs := by
  induction bs with
  | nil => rfl
  | cons b rest ih =>
      have h1 := b58DigitVal_b58Digit (b.val / 16) (by omega)
      have h2 := b58DigitVal_b58Digit (b.val % 16) (by omega)
      simp only [b58EncodeL, b58DecodeL, h1, h2, ih, Option.bind_eq_bind,
        Option.some_bind]
      rw [dif_pos (by omega)]
      congr 1
      have hb := b.isLt
      congr 1
      apply Fin.ext
      simp only []
      omega

/-- C8: decoding a key token fails with `UnsupportedEncoding` when the
leading character is not `z`; otherwise the remainder is
base58-decoded, the decode fails with `InvalidKeyFormat` when the first
two decoded bytes differ from the requested kind's multicodec tag
(`0xED01` public, `0x8026` private), and on success the remaining 32
raw key bytes are returned. -/
theorem claim_C8_key_decode :
    (∀ (kind : KeyKind) (c : Char) (cs : List Char), c ≠ 'z' →
        decode_key kind (String.mk (c :: cs)) =
          .error .unsupportedEncoding) ∧
    (∀ (kind : KeyKind) (bs : List Byte),
        bs.take 2 ≠ expectedHeader kind →
        decode_key kind (String.mk ('z' :: b58EncodeL bs)) =
          .error .invalidKeyFormat) ∧
    (∀ (kind : KeyKind) (raw : List Byte), raw.length = 32 →
        decode_key kind
          (String.mk ('z' :: b58EncodeL (expectedHeader kind ++ raw))) =
          .ok raw) := by
  refine ⟨?_, ?_, ?_⟩
  · intro kind c cs hc
    simp [decode_key, decode_multibase, hc]
  · intro kind bs hbs
    simp [decode_key, decode_multibase, b58DecodeL_b58EncodeL, hbs]
  · intro kind raw hlen
    have htake : (expectedHeader kind ++ raw).take 2 = expectedHeader kind := by
      cases kind <;> simp [expectedHeader]
    have hdrop : (expectedHeader kind ++ raw).drop 2 = raw := by
      cases kind <;> simp [expectedHeader]
    simp [decode_key, decode_multibase, b58DecodeL_b58EncodeL, htake, hdrop,
      hlen]

/-- Witness for C8 at concrete tokens. -/
theorem claim_C8_key_decode_witness :
    decode_key .pub (String.mk ['a', 'b', 'c']) =
      .error .unsupportedEncoding ∧
    decode_key .pub
      (String.mk ('z' :: b58EncodeL (expectedHeader .priv ++
        List.replicate 32 (0 : Byte)))) = .error .invalidKeyFormat ∧
    decode_key .pub
      (String.mk ('z' :: b58EncodeL (expectedHeader .pub ++
        List.replicate 32 (0 : Byte)))) = .ok (List.replicate 32 (0 : Byte)) := by
  refine ⟨claim_C8_key_decode.1 .pub 'a' ['b', 'c'] (by decide),
    claim_C8_key_decode.2.1 .pub _ (by decide),
    claim_C8_key_decode.2.2 .pub _ (by decide)⟩

/-- C10: a credential without a `credentialStatus` field passes the
revocation-status check unconditionally — `verify_status` returns
`{valid: true, revoked: false, error: null}` for every registry state
and every fetch capability, so even an identity the registry records as
revoked is not flagged. -/
theorem claim_C10_no_status_no_check (credential : Doc)
    (registry : Registry) (fetch : Option (JVal → Option JVal))
    (h : dGet credential "credentialStatus" = none) :
    verify_status credential registry fetch =
      some ⟨true, false, none, none⟩ := by
  simp [verify_status, h]

/-- Witness for C10: the identity is recorded as revoked, yet the check
passes because the credential document lacks `credentialStatus`. -/
theorem claim_C10_no_status_no_check_witness :
    verify_status
      [("id", .str "https://credentials.cognipilot.org/profile/w/a")]
      ⟨1, [("w/a", ⟨0, true, some "2025-02-01T00:00:00Z",
        "2025-01-01T00:00:00Z"⟩)]⟩ none =
      some ⟨true, false, none, none⟩ ∧
    is_revoked
      ⟨1, [("w/a", ⟨0, true, some "2025-02-01T00:00:00Z",
        "2025-01-01T00:00:00Z"⟩)]⟩ "w/a" = true := by
  constructor
  · exact claim_C10_no_status_no_check _ _ _ rfl
  · rfl

/-! ## Registry index-stability invariant (C4) -/

/-- The identities bound in a credentials mapping, in order. -/
def regKeys (creds : List (String × RegistryEntry)) : List String :=
  creds.map Prod.fst

/-- The indices assigned in a credentials mapping, in order. -/
def regIndices (creds : List (String × RegistryEntry)) : List Nat :=
  creds.map (fun kv => kv.2.index)

/-- The registry well-formedness invariant: identities are bound at most
once, assigned indices are pairwise distinct, every assigned index is
below `next_index`, and — unless the registry is empty — `next_index`
is one plus some (hence, given the bound, the maximum) assigned index. -/
def RegInv (r : Registry) : Prop :=
  (regKeys r.credentials).Nodup ∧
  (regIndices r.credentials).Nodup ∧
  (∀ i ∈ regIndices r.credentials, i < r.next_index) ∧
  (regIndices r.credentials = [] ∨
    r.next_index ∈ (regIndices r.credentials).map (· + 1))

theorem regGet_none_not_mem {l : List (String × RegistryEntry)}
    {k : String} (h : regGet l k = none) : k ∉ regKeys l := by
  induction l with
  | nil => simp [regKeys]
  | cons kv rest ih =>
      obtain ⟨k', v⟩ := kv
      by_cases hk : k' = k
      · simp [regGet, hk] at h
      · simp only [regGet, if_neg hk] at h
        have hrest := ih h
        simp only [regKeys, List.map_cons, List.mem_cons] at hrest ⊢
        rintro (hsym | hmem)
        · exact hk hsym.symm
        · exact hrest hmem

theorem regKeys_regUpd (l : List (String × RegistryEntry)) (k : String)
    (f : RegistryEntry → RegistryEntry) :
    regKeys (regUpd l k f) = regKeys l := by
  induction l with
  | nil => rfl
  | cons kv rest ih =>
      obtain ⟨k', v⟩ := kv
      by_cases hk : k' = k
      · simp [regUpd, hk, regKeys]
      · simp only [regUpd, if_neg hk, regKeys, List.map_cons]
        simp only [regKeys] at ih
        rw [ih]

theorem regIndices_regUpd (l : List (String × RegistryEntry)) (k : String)
    (f : RegistryEntry → RegistryEntry)
    (hf : ∀ e, (f e).index = e.index) :
    regIndices (regUpd l k f) = regIndices l := by
  induction l with
  | nil => rfl
  | cons kv rest ih =>
      obtain ⟨k', v⟩ := kv
      by_cases hk : k' = k
      · simp [regUpd, hk, regIndices, hf]
      · simp only [regUpd, if_neg hk, regIndices, List.map_cons]
        simp only [regIndices] at ih
        rw [ih]

theorem regGet_decomp {l : List (String × RegistryEntry)} {old : String}
    {e : RegistryEntry} (h : regGet l old = some e) :
    ∃ l1 l2, l = l1 ++ (old, e) :: l2 ∧ regErase l old = l1 ++ l2 := by
  induction l with
  | nil => simp [regGet] at h
  | cons kv rest ih =>
      obtain ⟨k', v⟩ := kv
      by_cases hk : k' = old
      · subst hk
        simp only [regGet, if_pos rfl, if_true, Option.some_inj, eq_self_iff_true] at h
        subst h
        exact ⟨[], rest, rfl, by simp [regErase]⟩
      · simp only [regGet, if_neg hk] at h
        obtain ⟨l1, l2, hl, he⟩ := ih h
        exact ⟨(k', v) :: l1, l2, by simp [hl], by simp [regErase, hk, he]⟩

/-- Moving one entry to a fresh key keeps the key list duplicate-free
and permutes the index list (no index changes, none is reused). -/
theorem move_entry_inv {l : List (String × RegistryEntry)}
    {old new : String} {e : RegistryEntry} (hold : regGet l old = some e)
    (hnew : regGet l new = none) (hnd : (regKeys l).Nodup) :
    (regKeys (regErase l old ++ [(new, e)])).Nodup ∧
    (regIndices (regErase l old ++ [(new, e)])).Perm (regIndices l) := by
  obtain ⟨l1, l2, hl, he⟩ := regGet_decomp hold
  have hnewmem : new ∉ regKeys l := regGet_none_not_mem hnew
  constructor
  · rw [he]
    have hnd' : (regKeys (l1 ++ l2)).Nodup := by
      rw [hl] at hnd
      have hs : (regKeys (l1 ++ l2)).Sublist (regKeys (l1 ++ (old, e) :: l2)) := by
        simp only [regKeys, List.map_append, List.map_cons]
        exact List.Sublist.append_left (List.sublist_cons_self _ _) _
      exact hnd.sublist hs
    have hnewmem' : new ∉ regKeys (l1 ++ l2) := by
      intro hmem
      apply hnewmem
      rw [hl]
      simp only [regKeys, List.map_append, List.map_cons,
        List.mem_append, List.mem_cons] at hmem ⊢
      tauto
    have : regKeys ((l1 ++ l2) ++ [(new, e)]) =
        regKeys (l1 ++ l2) ++ [new] := by simp [regKeys]
    rw [this]
    rw [List.nodup_append]
    refine ⟨hnd', List.nodup_singleton new, ?_⟩
    intro x hx hy
    simp only [List.mem_singleton] at hy
    subst hy
    exact hnewmem' hx
  · rw [he, hl]
    simp only [regIndices, List.map_append, List.map_cons,
      List.map_singleton, List.append_assoc]
    exact List.Perm.append_left _
      (List.perm_append_singleton _ _)

/-- The rename loop of `rename_wallet_in_registry` keeps keys
duplicate-free and permutes the index list. -/
theorem renameSteps_inv (ps : List (String × String)) :
    ∀ (acc : Nat × List (String × RegistryEntry)),
      (regKeys acc.2).Nodup →
      (regKeys (ps.foldl renameStep acc).2).Nodup ∧
      (regIndices (ps.foldl renameStep acc).2).Perm (regIndices acc.2) := by
  induction ps with
  | nil => exact fun acc h => ⟨h, List.Perm.refl _⟩
  | cons p rest ih =>
      intro acc hnd
      simp only [List.foldl_cons]
      cases hstep : regGet acc.2 p.2 with
      | some _ =>
          have heq : renameStep acc p = acc := by simp [renameStep, hstep]
          rw [heq]
          exact ih acc hnd
      | none =>
          cases hold : regGet acc.2 p.1 with
          | none =>
              have heq : renameStep acc p = acc := by
                simp [renameStep, hstep, hold]
              rw [heq]
              exact ih acc hnd
          | some e =>
              have heq : renameStep acc p =
                  (acc.1 + 1, regErase acc.2 p.1 ++ [(p.2, e)]) := by
                simp [renameStep, hstep, hold]
              rw [heq]
              obtain ⟨hk, hp⟩ := move_entry_inv hold hstep hnd
              have hk' : (regKeys ((acc.1 + 1,
                  regErase acc.2 p.1 ++ [(p.2, e)]) :
                  Nat × List (String × RegistryEntry)).2).Nodup := hk
              obtain ⟨hk2, hp2⟩ := ih _ hk'
              exact ⟨hk2, hp2.trans hp⟩

/-- Transport of `RegInv` along equal key/index lists. -/
theorem RegInv_of_eq {r r' : Registry} (h : RegInv r)
    (hk : regKeys r'.credentials = regKeys r.credentials)
    (hi : regIndices r'.credentials = regIndices r.credentials)
    (hn : r'.next_index = r.next_index) : RegInv r' := by
  obtain ⟨h1, h2, h3, h4⟩ := h
  refine ⟨hk ▸ h1, hi ▸ h2, ?_, ?_⟩
  · rw [hi, hn]; exact h3
  · rw [hi, hn]; exact h4

/-- Transport of `RegInv` along a permutation of the index list. -/
theorem RegInv_of_perm {r r' : Registry} (h : RegInv r)
    (hk : (regKeys r'.credentials).Nodup)
    (hp : (regIndices r'.credentials).Perm (regIndices r.credentials))
    (hn : r'.next_index = r.next_index) : RegInv r' := by
  obtain ⟨h1, h2, h3, h4⟩ := h
  refine ⟨hk, hp.nodup_iff.mpr h2, ?_, ?_⟩
  · intro i hi
    rw [hn]
    exact h3 i (hp.mem_iff.mp hi)
  · rcases h4 with h4 | h4
    · exact Or.inl (List.Perm.eq_nil (h4 ▸ hp))
    · right
      rw [hn]
      exact ((hp.map _).mem_iff).mpr h4

/-- C4: every registry operation — allocate, revoke, unrevoke, rename,
bulk prefix rename — preserves the invariant `RegInv` (`next_index` is
one plus the maximum assigned index, keys and indices stay
duplicate-free), never decreases `next_index`, and never changes or
reuses an assigned index: the index list is unchanged, extended by the
one fresh index `next_index`, or merely permuted. -/
theorem claim_C4_index_stability :
    (∀ (r : Registry) (id now : String), RegInv r →
      RegInv (allocate_status_index r id now).2 ∧
      r.next_index ≤ (allocate_status_index r id now).2.next_index ∧
      (regIndices (allocate_status_index r id now).2.credentials =
          regIndices r.credentials ∨
        (regIndices (allocate_status_index r id now).2.credentials =
            regIndices r.credentials ++ [r.next_index] ∧
          r.next_index ∉ regIndices r.credentials))) ∧
    (∀ (r : Registry) (id now : String), RegInv r →
      RegInv (revoke_credential r id now).2 ∧
      (revoke_credential r id now).2.next_index = r.next_index ∧
      regIndices (revoke_credential r id now).2.credentials =
        regIndices r.credentials) ∧
    (∀ (r : Registry) (id : String), RegInv r →
      RegInv (unrevoke_credential r id).2 ∧
      (unrevoke_credential r id).2.next_index = r.next_index ∧
      regIndices (unrevoke_credential r id).2.credentials =
        regIndices r.credentials) ∧
    (∀ (r : Registry) (old new : String), RegInv r →
      RegInv (rename_credential_in_registry r old new).2 ∧
      (rename_credential_in_registry r old new).2.next_index =
        r.next_index ∧
      (regIndices
        (rename_credential_in_registry r old new).2.credentials).Perm
        (regIndices r.credentials)) ∧
    (∀ (r : Registry) (oldSlug newSlug : String), RegInv r →
      RegInv (rename_wallet_in_registry r oldSlug newSlug).2 ∧
      (rename_wallet_in_registry r oldSlug newSlug).2.next_index =
        r.next_index ∧
      (regIndices
        (rename_wallet_in_registry r oldSlug newSlug).2.credentials).Perm
        (regIndices r.credentials)) := by
  refine ⟨?_, ?_, ?_, ?_, ?_⟩
  · -- allocate_status_index
    intro r id now hinv
    cases hget : regGet r.credentials id with
    | some info =>
        rw [allocate_existing hget]
        exact ⟨hinv, le_refl _, Or.inl rfl⟩
    | none =>
        rw [allocate_fresh hget]
        obtain ⟨h1, h2, h3, h4⟩ := hinv
        have hidx : regIndices (r.credentials ++
            [(id, ⟨r.next_index, false, none, now⟩)]) =
            regIndices r.credentials ++ [r.next_index] := by
          simp [regIndices]
        have hfresh : r.next_index ∉ regIndices r.credentials :=
          fun hmem => absurd (h3 _ hmem) (lt_irrefl _)
        refine ⟨⟨?_, ?_, ?_, ?_⟩, by simp, Or.inr ⟨hidx, hfresh⟩⟩
        · have hkeys : regKeys (r.credentials ++
              [(id, ⟨r.next_index, false, none, now⟩)]) =
              regKeys r.credentials ++ [id] := by simp [regKeys]
          rw [hkeys, List.nodup_append]
          refine ⟨h1, List.nodup_singleton id, ?_⟩
          intro x hx hy
          simp only [List.mem_singleton] at hy
          subst hy
          exact regGet_none_not_mem hget hx
        · rw [hidx, List.nodup_append]
          refine ⟨h2, List.nodup_singleton _, ?_⟩
          intro x hx hy
          simp only [List.mem_singleton] at hy
          subst hy
          exact hfresh hx
        · rw [hidx]
          intro i hi
          simp only [List.mem_append, List.mem_singleton] at hi
          rcases hi with hi | hi
          · exact lt_trans (h3 i hi) (by simp)
          · simp [hi]
        · right
          rw [hidx]
          simp
  · -- revoke_credential
    intro r id now hinv
    cases hget : regGet r.credentials id with
    | none => simp [revoke_credential, hget, hinv]
    | some info =>
        simp only [revoke_credential, hget]
        exact ⟨RegInv_of_eq hinv (regKeys_regUpd _ _ _)
          (regIndices_regUpd _ _ _ (fun e => rfl)) rfl, by trivial,
          regIndices_regUpd _ _ _ (fun e => rfl)⟩
  · -- unrevoke_credential
    intro r id hinv
    cases hget : regGet r.credentials id with
    | none => simp [unrevoke_credential, hget, hinv]
    | some info =>
        simp only [unrevoke_credential, hget]
        exact ⟨RegInv_of_eq hinv (regKeys_regUpd _ _ _)
          (regIndices_regUpd _ _ _ (fun e => rfl)) rfl, by trivial,
          regIndices_regUpd _ _ _ (fun e => rfl)⟩
  · -- rename_credential_in_registry
    intro r old new hinv
    by_cases heq : old = new
    · simp [rename_credential_in_registry, heq, hinv]
    · cases hold : regGet r.credentials old with
      | none => simp [rename_credential_in_registry, heq, hold, hinv]
      | some e =>
          cases hnew : regGet r.credentials new with
          | some e' =>
              simp [rename_credential_in_registry, heq, hold, hnew, hinv]
          | none =>
              simp only [rename_credential_in_registry, if_neg heq, hold,
                hnew]
              obtain ⟨hk, hp⟩ := move_entry_inv hold hnew hinv.1
              exact ⟨RegInv_of_perm hinv hk hp rfl, by trivial, hp⟩
  · -- rename_wallet_in_registry
    intro r oldSlug newSlug hinv
    by_cases hs : oldSlug = newSlug
    · simp [rename_wallet_in_registry, hs, hinv]
    · simp only [rename_wallet_in_registry, if_neg hs]
      obtain ⟨hk, hp⟩ := renameSteps_inv _ (0, r.credentials) hinv.1
      exact ⟨RegInv_of_perm hinv hk hp rfl, by trivial, hp⟩

/-- Witness for C4 at a concrete registry and operation sequence. -/
theorem claim_C4_index_stability_witness :
    RegInv ⟨2, [("a/x", ⟨0, false, none, "t0"⟩),
                ("a/y", ⟨1, true, some "t2", "t1"⟩)]⟩ ∧
    RegInv (allocate_status_index
      ⟨2, [("a/x", ⟨0, false, none, "t0"⟩),
           ("a/y", ⟨1, true, some "t2", "t1"⟩)]⟩ "b/z" "t3").2 ∧
    (rename_wallet_in_registry
      ⟨2, [("a/x", ⟨0, false, none, "t0"⟩),
           ("a/y", ⟨1, true, some "t2", "t1"⟩)]⟩ "a" "b").2.next_index = 2 := by
  have hinv : RegInv ⟨2, [("a/x", ⟨0, false, none, "t0"⟩),
      ("a/y", ⟨1, true, some "t2", "t1"⟩)]⟩ := by
    refine ⟨?_, ?_, ?_, ?_⟩ <;> simp [regKeys, regIndices]
  refine ⟨hinv, (claim_C4_index_stability.1 _ "b/z" "t3" hinv).1,
    (claim_C4_index_stability.2.2.2.2 _ "a" "b" hinv).2.1⟩

/-! ## Document lemmas for the proof engine -/

theorem dGet_append (d1 d2 : Doc) (k : String) :
    dGet (d1 ++ d2) k = (dGet d1 k).orElse (fun _ => dGet d2 k) := by
  induction d1 with
  | nil => rfl
  | cons kv rest ih =>
      obtain ⟨k', v⟩ := kv
      by_cases hk : k' = k <;> simp [dGet, hk, ih]

theorem dGet_filterNe_self (d : Doc) (k : String) :
    dGet (d.filter (fun kv => kv.1 ≠ k)) k = none := by
  induction d with
  | nil => rfl
  | cons kv rest ih =>
      obtain ⟨k', v⟩ := kv
      simp only [ne_eq, decide_not] at ih ⊢
      by_cases hk : k' = k
      · simp [List.filter, hk, ih]
      · simp only [List.filter_cons]
        rw [if_pos (by simpa using hk)]
        simp [dGet, hk, ih]

theorem dGet_filterNe_other (d : Doc) {k k' : String} (h : k' ≠ k) :
    dGet (d.filter (fun kv => kv.1 ≠ k)) k' = dGet d k' := by
  induction d with
  | nil => rfl
  | cons kv rest ih =>
      obtain ⟨k2, v⟩ := kv
      simp only [ne_eq, decide_not] at ih ⊢
      by_cases hk : k2 = k
      · subst hk
        rw [List.filter_cons, if_neg (by simp)]
        rw [ih]
        simp [dGet, Ne.symm h]
      · rw [List.filter_cons, if_pos (by simpa using hk)]
        by_cases hk2 : k2 = k' <;> simp [dGet, hk2, ih]

theorem filterNe_idem (d : Doc) (k : String) :
    (d.filter (fun kv => kv.1 ≠ k)).filter (fun kv => kv.1 ≠ k) =
      d.filter (fun kv => kv.1 ≠ k) := by
  rw [List.filter_filter]
  congr 1
  funext kv
  by_cases h : kv.1 = k <;> simp [h]

/-! ## Revocation overrides cryptographic validity (C2) -/

theorem verifyTail_verified_false {cred : Doc} {vk : VerifyKeyM}
    {R : Registry} {combined sig : List Byte} {res0 : VerifyResult}
    (hres : res0.verified = false)
    (hst : ∀ st, verify_status cred R none = some st → st.revoked = true) :
    ∀ res, verifyTail cred vk R combined sig res0 = some res →
      res.verified = false := by
  intro res h
  unfold verifyTail at h
  split at h
  · split at h
    · cases h
    · rename_i st hstv
      have hrev := hst st hstv
      rw [if_pos hrev] at h
      split at h <;>
        (try split at h) <;>
        (simp only [Option.some_inj] at h; exact h ▸ rfl)
  · simp only [Option.some_inj] at h
    rw [← h]
    exact hres

/-- If the status check reports the credential revoked, every result
`verify_credential` returns carries `verified = false`: the flag is only
set after a successful signature check, and the revoked path resets it;
every other exit keeps the initial `false`. -/
theorem verify_credential_false_of_revoked {cred : Doc} {vk : VerifyKeyM}
    {R : Registry}
    (hst : ∀ st, verify_status cred R none = some st → st.revoked = true) :
    ∀ res, verify_credential cred vk R = some res →
      res.verified = false := by
  intro res h
  unfold verify_credential at h
  repeat'
    first
      | (exact verifyTail_verified_false rfl hst res h)
      | (simp only [Option.some_inj] at h; exact h ▸ rfl)
      | (cases h)
      | split at h
      | (simp only [] at h)

/-- Under a well-formed revocation `credentialStatus` entry and a
registry that records the credential's stripped identity as revoked,
`verify_status` reports revocation (before any remote fetch). -/
theorem verify_status_revoked_eval (cred : Doc) (R : Registry)
    (fetch : Option (JVal → Option JVal)) (status : List (String × JVal))
    (s : String) (e : RegistryEntry) (idx : Int)
    (h1 : dGet cred "credentialStatus" = some (.obj status))
    (h2 : dGet status "type" = some (.str "BitstringStatusListEntry"))
    (h3 : dGet status "statusPurpose" = some (.str "revocation"))
    (h4 : pyInt ((dGet status "statusListIndex").getD (.num (-1))) =
      some idx)
    (h5 : dGet cred "id" = some (.str s))
    (h6 : pyReplace s profileBase "" ≠ "")
    (h7 : regGet R.credentials (pyReplace s profileBase "") = some e)
    (h8 : e.revoked = true) :
    verify_status cred R fetch =
      some ⟨false, true, none, e.revoked_at⟩ := by
  have hne : status ≠ [] := by
    rintro rfl
    simp [dGet] at h2
  have hfal : jfalsy (.obj status) = false := by
    cases status with
    | nil => exact absurd rfl hne
    | cons kv rest => rfl
  simp only [verify_status, h1, hfal, Bool.false_eq_true, if_false,
    isStrVal, h2, h3, h4, h5, h6, h7, h8, beq_self_eq_true, if_true]
  simp [h6, h8]

/-- C2 (amended): for every credential carrying a well-formed revocation
`credentialStatus` entry (type `BitstringStatusListEntry`, purpose
`revocation`, parseable `statusListIndex`) whose id strips to a
non-empty identity recorded as revoked in the registry, every result
`verify_credential` returns has `verified = false` — in particular a
cryptographically valid signature is overridden by revocation. -/
theorem claim_C2_revocation_overrides (cred : Doc) (vk : VerifyKeyM)
    (R : Registry) (status : List (String × JVal)) (s : String)
    (e : RegistryEntry) (idx : Int)
    (h1 : dGet cred "credentialStatus" = some (.obj status))
    (h2 : dGet status "type" = some (.str "BitstringStatusListEntry"))
    (h3 : dGet status "statusPurpose" = some (.str "revocation"))
    (h4 : pyInt ((dGet status "statusListIndex").getD (.num (-1))) =
      some idx)
    (h5 : dGet cred "id" = some (.str s))
    (h6 : pyReplace s profileBase "" ≠ "")
    (h7 : regGet R.credentials (pyReplace s profileBase "") = some e)
    (h8 : e.revoked = true) :
    ∀ res, verify_credential cred vk R = some res →
      res.verified = false := by
  apply verify_credential_false_of_revoked
  intro st hst
  rw [verify_status_revoked_eval cred R none status s e idx h1 h2 h3 h4 h5
    h6 h7 h8] at hst
  simp only [Option.some_inj] at hst
  rw [← hst]

/-- The claim as frozen is false on the code: this credential's
signature verifies and the registry records its identity `w/a` as
revoked, yet the verdict is `verified = true`, because the credential
document carries no `credentialStatus` entry and `verify_status` then
never consults the registry. -/
theorem claim_C2_counterexample :
    (verify_credential
      (sign_credential
        [("@context", .arr [.str "https://www.w3.org/ns/credentials/v2"]),
         ("id", .str "https://credentials.cognipilot.org/profile/w/a")]
        ⟨[1, 2, 3]⟩ "did:web:credentials.cognipilot.org#key-0"
        "2025-01-01T00:00:00Z")
      ⟨[1, 2, 3]⟩
      ⟨1, [("w/a", ⟨0, true, some "2025-02-01T00:00:00Z",
        "2025-01-01T00:00:00Z"⟩)]⟩).map (fun r => r.verified) = some true ∧
    (regGet [("w/a", (⟨0, true, some "2025-02-01T00:00:00Z",
        "2025-01-01T00:00:00Z"⟩ : RegistryEntry))] "w/a").map
      (fun e => e.revoked) = some true := by
  constructor
  · rfl
  · rfl

/-! ## Sign-then-verify round trip (C1) -/

/-- The claim as frozen is false on the code: signing this credential
with a valid keypair and verifying against the matching public key
yields `verified = false`, because the registry records the
credential's identity as revoked and revocation overrides the (valid)
signature. -/
theorem claim_C1_counterexample :
    (verify_credential
      (sign_credential
        [("@context", .arr [.str "https://www.w3.org/ns/credentials/v2"]),
         ("id", .str "https://credentials.cognipilot.org/profile/w/a"),
         ("credentialStatus", .obj
           [("id", .str
              "https://credentials.cognipilot.org/status/revocation-list#0"),
            ("type", .str "BitstringStatusListEntry"),
            ("statusPurpose", .str "revocation"),
            ("statusListIndex", .str "0"),
            ("statusListCredential", .str
              "https://credentials.cognipilot.org/status/revocation-list")])]
        ⟨[1, 2, 3]⟩ "did:web:credentials.cognipilot.org#key-0"
        "2025-01-01T00:00:00Z")
      ⟨[1, 2, 3]⟩
      ⟨1, [("w/a", ⟨0, true, some "2025-02-01T00:00:00Z",
        "2025-01-01T00:00:00Z"⟩)]⟩).map (fun r => r.verified) =
      some false := by
  rfl

/-- The guard `verify_credential` applies while echoing subject data
(source lines 213-217): `credentialSubject` and its `achievement`, when
present, must be objects or the attribute access raises. -/
def subjObjOk (d : Doc) : Prop :=
  match dGet d "credentialSubject" with
  | none => True
  | some (.obj subj) =>
      match dGet subj "achievement" with
      | none => True
      | some (.obj _) => True
      | some _ => False
  | some _ => False


/-- C1 (amended): signing then verifying with the matching key yields
`verified = true`, provided the credential declares an `@context` (the
verifier reads `credential['@context']` unconditionally in the
rdfc branch), its `credentialSubject`/`achievement` fields, when
present, are objects (the result-echo extraction requires attribute
access), and the revocation-status check completes without reporting
the credential revoked (revocation overrides the valid signature). -/
theorem claim_C1_sign_verify_roundtrip (C : Doc) (sk : SigningKeyM)
    (vm ts : String) (R : Registry) (ctx : JVal) (st : StatusResult)
    (hctx : dGet C "@context" = some ctx)
    (hst : verify_status (sign_credential C sk vm ts) R none = some st)
    (hrev : st.revoked = false)
    (hsubj : subjObjOk C) :
    (verify_credential (sign_credential C sk vm ts)
      (derive_verify_key sk) R).map (fun r => r.verified) = some true := by
  have hne : ("@context" : String) ≠ "proof" := by decide
  have hne2 : ("credentialSubject" : String) ≠ "proof" := by decide
  have F1 : dGet (sign_credential C sk vm ts) "proof" =
      some (.obj (create_proof_config vm ts ++
        [("proofValue", .str (String.mk ('z' :: b58EncodeL
          (ed_sign sk
            (sha256 (rdfc_canonicalize
              (("@context", proofContext) :: create_proof_config vm ts)) ++
             sha256 (rdfc_canonicalize
               (C.filter (fun kv => kv.1 ≠ "proof"))))))))])) := by
    show dGet (C.filter (fun kv => kv.1 ≠ "proof") ++ _) "proof" = _
    rw [dGet_append, dGet_filterNe_self]
    rfl
  have F10 : dGet (sign_credential C sk vm ts) "@context" = some ctx := by
    show dGet (C.filter (fun kv => kv.1 ≠ "proof") ++ _) "@context" = _
    rw [dGet_append, dGet_filterNe_other _ hne, hctx]
    rfl
  have F11 : (sign_credential C sk vm ts).filter (fun kv => kv.1 ≠ "proof") =
      C.filter (fun kv => kv.1 ≠ "proof") := by
    show (C.filter (fun kv => kv.1 ≠ "proof") ++ _).filter
        (fun kv => kv.1 ≠ "proof") = _
    rw [List.filter_append, filterNe_idem]
    simp
  have F14 : dGet (sign_credential C sk vm ts) "credentialSubject" =
      dGet C "credentialSubject" := by
    show dGet (C.filter (fun kv => kv.1 ≠ "proof") ++ _)
      "credentialSubject" = _
    rw [dGet_append, dGet_filterNe_other _ hne2]
    cases h : dGet C "credentialSubject" <;> rfl
  have F9 : decode_multibase (String.mk ('z' :: b58EncodeL
      (ed_sign sk
        (sha256 (rdfc_canonicalize
          [(("@context" : String), proofContext),
           ("type", .str "DataIntegrityProof"),
           ("cryptosuite", .str "eddsa-rdfc-2022"),
           ("verificationMethod", .str vm), ("created", .str ts),
           ("proofPurpose", .str "assertionMethod")]) ++
         sha256 (rdfc_canonicalize
           (C.filter (fun kv => kv.1 ≠ "proof"))))))) =
      .ok (ed_sign sk
        (sha256 (rdfc_canonicalize
          [(("@context" : String), proofContext),
           ("type", .str "DataIntegrityProof"),
           ("cryptosuite", .str "eddsa-rdfc-2022"),
           ("verificationMethod", .str vm), ("created", .str ts),
           ("proofPurpose", .str "assertionMethod")]) ++
         sha256 (rdfc_canonicalize
           (C.filter (fun kv => kv.1 ≠ "proof"))))) := by
    simp [decode_multibase, b58DecodeL_b58EncodeL]
  have F13 : ed_verify (derive_verify_key sk)
      (sha256 (rdfc_canonicalize
        [(("@context" : String), ctx), ("type", .str "DataIntegrityProof"),
         ("cryptosuite", .str "eddsa-rdfc-2022"),
         ("verificationMethod", .str vm), ("created", .str ts),
         ("proofPurpose", .str "assertionMethod")]) ++
       sha256 (rdfc_canonicalize (C.filter (fun kv => kv.1 ≠ "proof"))))
      (ed_sign sk
        (sha256 (rdfc_canonicalize
          [(("@context" : String), proofContext),
           ("type", .str "DataIntegrityProof"),
           ("cryptosuite", .str "eddsa-rdfc-2022"),
           ("verificationMethod", .str vm), ("created", .str ts),
           ("proofPurpose", .str "assertionMethod")]) ++
         sha256 (rdfc_canonicalize (C.filter (fun kv => kv.1 ≠ "proof"))))) =
      true := by
    have hcanon : rdfc_canonicalize
        [(("@context" : String), ctx), ("type", .str "DataIntegrityProof"),
         ("cryptosuite", .str "eddsa-rdfc-2022"),
         ("verificationMethod", .str vm), ("created", .str ts),
         ("proofPurpose", .str "assertionMethod")] =
        rdfc_canonicalize
          [(("@context" : String), proofContext),
           ("type", .str "DataIntegrityProof"),
           ("cryptosuite", .str "eddsa-rdfc-2022"),
           ("verificationMethod", .str vm), ("created", .str ts),
           ("proofPurpose", .str "assertionMethod")] := rfl
    rw [hcanon]
    simp [ed_verify, ed_sign, derive_verify_key]
  simp only [verify_credential, F1]
  simp only [create_proof_config, dGet, String.reduceEq, String.reduceBEq,
    reduceIte, isStrVal, beq_self_eq_true, if_true, or_true, jfalsy,
    List.isEmpty_cons, Bool.false_eq_true, if_false, F9]
  rw [F10]
  simp only [F11]
  unfold verifyTail
  rw [F13]
  simp only [reduceIte, hst]
  rw [if_neg (by simp [hrev])]
  unfold subjObjOk at hsubj
  cases hsv : st.error with
  | none =>
      simp only [hsv]
      rw [F14]
      cases hcs : dGet C "credentialSubject" with
      | none => rfl
      | some sv =>
          rw [hcs] at hsubj
          cases sv with
          | obj subj =>
              have hsubj2 : (match dGet subj "achievement" with
                  | none => True
                  | some (.obj _) => True
                  | some _ => False : Prop) := hsubj
              cases hach : dGet subj "achievement" with
              | none =>
                  simp only [hach]
                  rfl
              | some av =>
                  rw [hach] at hsubj2
                  simp only [hach]
                  cases av <;> first | rfl | exact absurd hsubj2 (by simp)
          | null => exact absurd hsubj (by simp)
          | bool b => exact absurd hsubj (by simp)
          | num n => exact absurd hsubj (by simp)
          | str s => exact absurd hsubj (by simp)
          | arr xs => exact absurd hsubj (by simp)
  | some e =>
      simp only [hsv]
      rw [F14]
      cases hcs : dGet C "credentialSubject" with
      | none => rfl
      | some sv =>
          rw [hcs] at hsubj
          cases sv with
          | obj subj =>
              have hsubj2 : (match dGet subj "achievement" with
                  | none => True
                  | some (.obj _) => True
                  | some _ => False : Prop) := hsubj
              cases hach : dGet subj "achievement" with
              | none =>
                  simp only [hach]
                  rfl
              | some av =>
                  rw [hach] at hsubj2
                  simp only [hach]
                  cases av <;> first | rfl | exact absurd hsubj2 (by simp)
          | null => exact absurd hsubj (by simp)
          | bool b => exact absurd hsubj (by simp)
          | num n => exact absurd hsubj (by simp)
          | str s => exact absurd hsubj (by simp)
          | arr xs => exact absurd hsubj (by simp)

/-- Witness for C1 at a concrete credential, keypair and registry. -/
theorem claim_C1_sign_verify_roundtrip_witness :
    (verify_credential
      (sign_credential
        [("@context", .arr [.str "https://www.w3.org/ns/credentials/v2"]),
         ("id", .str "https://credentials.cognipilot.org/profile/w/b"),
         ("credentialSubject", .obj [("id", .str "did:example:holder")])]
        ⟨[7, 7]⟩ "did:web:credentials.cognipilot.org#key-0"
        "2025-03-01T00:00:00Z")
      (derive_verify_key ⟨[7, 7]⟩) ⟨0, []⟩).map (fun r => r.verified) =
      some true := by
  exact claim_C1_sign_verify_roundtrip
    [("@context", .arr [.str "https://www.w3.org/ns/credentials/v2"]),
     ("id", .str "https://credentials.cognipilot.org/profile/w/b"),
     ("credentialSubject", .obj [("id", .str "did:example:holder")])]
    ⟨[7, 7]⟩ "did:web:credentials.cognipilot.org#key-0"
    "2025-03-01T00:00:00Z" ⟨0, []⟩
    (.arr [.str "https://www.w3.org/ns/credentials/v2"])
    ⟨true, false, none, none⟩ rfl rfl rfl trivial

/-- Witness for C2 at a concrete credential and revoked registry. -/
theorem claim_C2_revocation_overrides_witness :
    (verify_credential
      [("id", .str "https://credentials.cognipilot.org/profile/w/a"),
       ("credentialStatus", .obj
         [("type", .str "BitstringStatusListEntry"),
          ("statusPurpose", .str "revocation"),
          ("statusListIndex", .str "0")])]
      ⟨[9]⟩
      ⟨1, [("w/a", ⟨0, true, some "2025-02-01T00:00:00Z",
        "2025-01-01T00:00:00Z"⟩)]⟩).map (fun r => r.verified) =
      some false := by
  have h := claim_C2_revocation_overrides
    [("id", .str "https://credentials.cognipilot.org/profile/w/a"),
     ("credentialStatus", .obj
       [("type", .str "BitstringStatusListEntry"),
        ("statusPurpose", .str "revocation"),
        ("statusListIndex", .str "0")])]
    ⟨[9]⟩
    ⟨1, [("w/a", ⟨0, true, some "2025-02-01T00:00:00Z",
      "2025-01-01T00:00:00Z"⟩)]⟩
    [("type", .str "BitstringStatusListEntry"),
     ("statusPurpose", .str "revocation"),
     ("statusListIndex", .str "0")]
    "https://credentials.cognipilot.org/profile/w/a"
    ⟨0, true, some "2025-02-01T00:00:00Z", "2025-01-01T00:00:00Z"⟩ 0
    rfl rfl rfl rfl rfl (by decide) rfl rfl
  cases hv : verify_credential
      [("id", .str "https://credentials.cognipilot.org/profile/w/a"),
       ("credentialStatus", .obj
         [("type", .str "BitstringStatusListEntry"),
          ("statusPurpose", .str "revocation"),
          ("statusListIndex", .str "0")])]
      ⟨[9]⟩
      ⟨1, [("w/a", ⟨0, true, some "2025-02-01T00:00:00Z",
        "2025-01-01T00:00:00Z"⟩)]⟩ with
  | none => exact absurd hv (by decide)
  | some r =>
      show some r.verified = some false
      rw [h r hv]
